import Mathlib

/-!
# SecretSweep: the scanning engine of `server.js`

A shallow embedding of the scanning engine (file exclusion policy, directory walk,
comment classifier, false-positive filter, masking, summary and grouping) and the
properties proved about it.

JavaScript strings are sequences of UTF-16 code units; a code unit is a natural number.
-/

namespace SecretSweep

/-! ## Strings -/

/-- A JavaScript string: its UTF-16 code units, in order. -/
abbrev JSString := List Nat

/-- The code units of a literal whose characters all lie in the Basic Multilingual Plane. -/
def str (s : String) : JSString := s.toList.map Char.toNat

/-- The method `String.prototype.substring(start, end)` on non-negative integer arguments: both are
clamped to the length and swapped when `start > end`. -/
def substring (s : JSString) (start stop : Nat) : JSString :=
  let a := min start s.length
  let b := min stop s.length
  let lo := min a b
  let hi := max a b
  (s.drop lo).take (hi - lo)

/-- The method `String.prototype.substring(start)`: the end defaults to the length. -/
def substringFrom (s : JSString) (start : Nat) : JSString :=
  substring s start s.length

/-- The method `String.prototype.startsWith(p)`. -/
def startsWith (s p : JSString) : Bool :=
  match p, s with
  | [], _ => true
  | _ :: _, [] => false
  | c :: p', d :: s' => c == d && startsWith s' p'

/-- The method `String.prototype.includes(p)`: `p` occurs at some position of `s`. -/
def includes (s p : JSString) : Bool :=
  match s with
  | [] => startsWith [] p
  | c :: s' => startsWith (c :: s') p || includes s' p

/-- White space and line terminators of ECMAScript: what `trim` strips and `\s` matches. -/
def isWhiteSpace (u : Nat) : Bool :=
  u == 9 || u == 10 || u == 11 || u == 12 || u == 13 || u == 32 || u == 160 ||
  u == 5760 || (8192 ≤ u && u ≤ 8202) || u == 8232 || u == 8233 || u == 8239 ||
  u == 8287 || u == 12288 || u == 65279

/-- Drops the leading white space. -/
def trimStart (s : JSString) : JSString :=
  s.dropWhile isWhiteSpace

/-- The method `String.prototype.trim()`. -/
def trim (s : JSString) : JSString :=
  (trimStart (trimStart s).reverse).reverse

/-- The loop of `split('\n')`: `cur` is the piece being read. -/
def splitLoop (cur : JSString) : JSString → List JSString
  | [] => [cur]
  | c :: rest => if c == 10 then cur :: splitLoop [] rest else splitLoop (cur ++ [c]) rest

/-- The method `String.prototype.split('\n')`. -/
def splitLines (s : JSString) : List JSString :=
  splitLoop [] s

/-- Lower-case form of one code unit, exact wherever the result contains an ASCII code
unit: `A`-`Z`, the Kelvin sign U+212A (to `k`) and U+0130 (to `i` followed by U+0307).
Every other code unit is kept: its lower-case form has no ASCII code unit either, and the
program only compares lower-cased strings with ASCII literals. -/
def lowerUnit (u : Nat) : List Nat :=
  if 65 ≤ u ∧ u ≤ 90 then [u + 32]
  else if u = 8490 then [107]
  else if u = 304 then [105, 775]
  else [u]

/-- The method `String.prototype.toLowerCase()`. -/
def toLowerCase (s : JSString) : JSString :=
  s.flatMap lowerUnit

/-! ## Paths (`path.basename` and `path.extname`, POSIX flavour) -/

/-- State of the right-to-left loop of `path.basename`. -/
structure BasenameState where
  start : Nat
  stop : Option Nat
  matchedSlash : Bool
  done : Bool

/-- One iteration of the loop of `path.basename` at index `i` holding code unit `c`. -/
def basenameStep (st : BasenameState) (i c : Nat) : BasenameState :=
  if st.done then st
  else if c == 47 then
    if !st.matchedSlash then { st with start := i + 1, done := true } else st
  else if st.stop.isNone then
    { st with matchedSlash := false, stop := some (i + 1) }
  else st

/-- The loop of `path.basename` over the indices `n - 1, ..., 0`; `rev` holds the code
units at those indices, in that order. -/
def basenameLoop (st : BasenameState) : Nat → JSString → BasenameState
  | n + 1, c :: rev => basenameLoop (basenameStep st n c) n rev
  | _, _ => st

/-- The function `path.basename(p)`: the last component of `p`, trailing slashes apart. -/
def basename (p : JSString) : JSString :=
  let st := basenameLoop ⟨0, none, true, false⟩ p.length p.reverse
  match st.stop with
  | none => []
  | some e => (p.drop st.start).take (e - st.start)

/-- State of the right-to-left loop of `path.extname`; `preDotState` is `0`, `-1` or `1`. -/
structure ExtnameState where
  startDot : Option Nat
  startPart : Nat
  stop : Option Nat
  matchedSlash : Bool
  preDotState : Int
  done : Bool

/-- One iteration of the loop of `path.extname` at index `i` holding code unit `c`. -/
def extnameStep (st : ExtnameState) (i c : Nat) : ExtnameState :=
  if st.done then st
  else if c == 47 then
    if !st.matchedSlash then { st with startPart := i + 1, done := true } else st
  else
    let st1 := if st.stop.isNone then { st with matchedSlash := false, stop := some (i + 1) } else st
    if c == 46 then
      if st1.startDot.isNone then { st1 with startDot := some i }
      else if st1.preDotState != 1 then { st1 with preDotState := 1 }
      else st1
    else if st1.startDot.isSome then { st1 with preDotState := -1 }
    else st1

/-- The loop of `path.extname` over the indices `n - 1, ..., 0`. -/
def extnameLoop (st : ExtnameState) : Nat → JSString → ExtnameState
  | n + 1, c :: rev => extnameLoop (extnameStep st n c) n rev
  | _, _ => st

/-- The function `path.extname(p)`: from the last dot of the last component to its end, or the empty
string when there is no such dot, the dot starts the component, or the component is `..`. -/
def extname (p : JSString) : JSString :=
  let st := extnameLoop ⟨none, 0, none, true, 0, false⟩ p.length p.reverse
  match st.startDot, st.stop with
  | some d, some e =>
    if st.preDotState == 0 || (st.preDotState == 1 && d + 1 == e && d == st.startPart + 1)
    then [] else (p.drop d).take (e - d)
  | _, _ => []

/-! ## Regular expressions

The backtracking matcher of ECMAScript for the constructs the program's literals use.
A matcher maps a position to the positions at which a match may end, in the order in which
backtracking tries them; the first one is the match `exec` reports. -/

/-- The pattern constructs used by the regular-expression literals of the program. -/
inductive Regex where
  /-- The empty pattern. -/
  | empty
  /-- One code unit of a class (a literal character, an escape such as `\d`, or a bracket). -/
  | unit (p : Nat → Bool)
  /-- Concatenation. -/
  | seq (a b : Regex)
  /-- Alternation `a|b`: `a` is tried first. -/
  | alt (a b : Regex)
  /-- Greedy `a*`. -/
  | star (a : Regex)
  /-- The assertion `^` (no `m` flag): the start of the input. -/
  | bol
  /-- The assertion `\b`. -/
  | wordBoundary

/-- A position in the input: the code unit before it (none at the start) and what follows. -/
structure Pos where
  prev : Option Nat
  rest : JSString
deriving DecidableEq

/-- The class `\w` without the `u` flag: `[A-Za-z0-9_]`. -/
def isWordChar (u : Nat) : Bool :=
  (97 ≤ u && u ≤ 122) || (65 ≤ u && u ≤ 90) || (48 ≤ u && u ≤ 57) || u == 95

/-- The class `\d`: `[0-9]`. -/
def isDigit (u : Nat) : Bool :=
  48 ≤ u && u ≤ 57

/-- Is there a word character just before (`a`) but not just after (`b`) the position, or
the other way round. -/
def atWordBoundary (s : Pos) : Bool :=
  let a := match s.prev with
    | some u => isWordChar u
    | none => false
  let b := match s.rest with
    | u :: _ => isWordChar u
    | [] => false
  a != b

/-- The repeat matcher of a greedy `*`: one more iteration first, then none. An iteration
that consumes nothing is abandoned, and `fuel` bounds the number of iterations by the
number of code units left. -/
def starLoop (step : Pos → List Pos) : Nat → Pos → List Pos
  | 0, s => [s]
  | fuel + 1, s =>
    ((step s).filter (fun t => t.rest.length < s.rest.length)).flatMap (starLoop step fuel) ++ [s]

/-- The end positions of the matches of `r` that start at `s`, in backtracking order. -/
def Regex.run : Regex → Pos → List Pos
  | .empty, s => [s]
  | .unit p, s =>
    match s.rest with
    | u :: t => if p u then [⟨some u, t⟩] else []
    | [] => []
  | .seq a b, s => (a.run s).flatMap b.run
  | .alt a b, s => a.run s ++ b.run s
  | .star a, s => starLoop a.run s.rest.length s
  | .bol, s => if s.prev.isNone then [s] else []
  | .wordBoundary, s => if atWordBoundary s then [s] else []

/-- Does a match of `r` start at the position holding `prev` before and `rest` after it, or
at a later position. -/
def Regex.testFrom (r : Regex) (prev : Option Nat) : JSString → Bool
  | [] => !(r.run ⟨prev, []⟩).isEmpty
  | u :: t => !(r.run ⟨prev, u :: t⟩).isEmpty || r.testFrom (some u) t

/-- The method `RegExp.prototype.test` of a pattern without the `g` and `y` flags. -/
def Regex.test (r : Regex) (s : JSString) : Bool :=
  r.testFrom none s

/-- The code units between position `s` and the later position `t`. -/
def consumed (s t : Pos) : JSString :=
  s.rest.take (s.rest.length - t.rest.length)

/-- The first way through `(a)(b)` from `s`: where group 1 and where group 2 end. -/
def firstPair (a b : Regex) (s : Pos) : Option (Pos × Pos) :=
  ((a.run s).flatMap (fun t => (b.run t).map (fun u => (t, u)))).head?

/-- Search for `(a)(b)` from the position holding `prev` before and `rest` after it; the
result holds the texts of group 1 and group 2 of the leftmost match. -/
def matchGroupsFrom (a b : Regex) (prev : Option Nat) : JSString → Option (JSString × JSString)
  | [] =>
    match firstPair a b ⟨prev, []⟩ with
    | some (t, u) => some (consumed ⟨prev, []⟩ t, consumed t u)
    | none => none
  | c :: rest =>
    match firstPair a b ⟨prev, c :: rest⟩ with
    | some (t, u) => some (consumed ⟨prev, c :: rest⟩ t, consumed t u)
    | none => matchGroupsFrom a b (some c) rest

/-- The method `String.prototype.match` with the two-group pattern `(a)(b)` (no `g` flag): `none` for
`null`, otherwise the entries `[1]` and `[2]` of the match array. -/
def matchGroups (a b : Regex) (s : JSString) : Option (JSString × JSString) :=
  matchGroupsFrom a b none s

/-- The greedy repetition `a+`. -/
def Regex.plus (a : Regex) : Regex := .seq a (.star a)

/-- The greedy option `a?`. -/
def Regex.opt (a : Regex) : Regex := .alt a .empty

/-- A literal code unit. -/
def Regex.char (c : Char) : Regex := .unit (fun u => u == c.toNat)

/-- Canonical form of a code unit under the `i` flag, as far as ASCII is concerned: no
code unit outside ASCII is canonically equal to an ASCII one. -/
def canonicalize (u : Nat) : Nat :=
  if 97 ≤ u ∧ u ≤ 122 then u - 32 else u

/-- A literal code unit under the `i` flag. -/
def Regex.charI (c : Char) : Regex := .unit (fun u => canonicalize u == canonicalize c.toNat)

/-- A literal text. -/
def Regex.lit (s : String) : Regex :=
  s.toList.foldr (fun c r => .seq (.char c) r) .empty

/-- A literal text under the `i` flag. -/
def Regex.litI (s : String) : Regex :=
  s.toList.foldr (fun c r => .seq (.charI c) r) .empty

/-- An alternation `a1|a2|...|an`. -/
def Regex.alts : List Regex → Regex
  | [] => .empty
  | [a] => a
  | a :: rest => .alt a (Regex.alts rest)

/-- The pattern `\bword\b` with the `i` flag. -/
def Regex.wordI (s : String) : Regex :=
  .seq .wordBoundary (.seq (.litI s) .wordBoundary)

/-! ## Exclusion policy and directory walk -/

/-- The constant `SKIP_DIRS`. -/
def SKIP_DIRS : List JSString :=
  ["node_modules", ".git", ".svn", ".hg", "dist", "build", "out",
   "bin", "obj", ".next", ".nuxt", "__pycache__", ".venv", "venv",
   "vendor", "packages", ".vs", ".idea", "coverage", ".nyc_output",
   "target", ".gradle", ".maven", "bower_components", "jspm_packages"].map str

/-- The constant `SKIP_EXTENSIONS`. -/
def SKIP_EXTENSIONS : List JSString :=
  [".png", ".jpg", ".jpeg", ".gif", ".bmp", ".ico", ".svg", ".webp",
   ".woff", ".woff2", ".ttf", ".eot", ".otf",
   ".mp3", ".mp4", ".avi", ".mov", ".wmv", ".flv", ".ogg", ".wav",
   ".zip", ".tar", ".gz", ".rar", ".7z", ".bz2",
   ".exe", ".dll", ".so", ".dylib", ".bin", ".class", ".pyc", ".pyo",
   ".pdf", ".doc", ".docx", ".xls", ".xlsx", ".ppt", ".pptx",
   ".lock", ".min.js", ".min.css", ".map",
   ".DS_Store", ".db", ".sqlite", ".sqlite3"].map str

/-- The constant `MAX_FILE_SIZE`: 1 MiB. -/
def MAX_FILE_SIZE : Nat := 1024 * 1024

/-- The function `shouldSkipFile`. -/
def shouldSkipFile (filePath : JSString) : Bool :=
  let ext := toLowerCase (extname filePath)
  let basename := basename filePath
  if SKIP_EXTENSIONS.contains ext then true
  else if startsWith basename (str ".") && !includes basename (str "env") then true
  else if basename == str "package-lock.json" || basename == str "yarn.lock" then true
  else false

/-- A directory entry as `readdirSync` with `withFileTypes` reports it, with what the file
system holds behind it: for a regular file the size `statSync` gives (none when it throws),
for a directory its own listing (none when `readdirSync` throws); `other` is an entry that
is neither (a link, a socket, ...). -/
inductive Dirent where
  | file (name : JSString) (size : Option Nat)
  | dir (name : JSString) (listing : Option (List Dirent))
  | other (name : JSString)

/-- The field `name` of a directory entry. -/
def Dirent.name : Dirent → JSString
  | .file name _ => name
  | .dir name _ => name
  | .other name => name

mutual
/-- The function `walkDirectory`: `listing` is what `readdirSync(dirPath)` gives, `files`
the array being filled, `join` the function `path.join`. -/
def walkDirectory (join : JSString → JSString → JSString) (dirPath : JSString) :
    Option (List Dirent) → List JSString → List JSString
  | none, files => files
  | some entries, files => walkEntries join dirPath entries files
termination_by structural x => x
/-- The loop of `walkDirectory` over the entries of `dirPath`. -/
def walkEntries (join : JSString → JSString → JSString) (dirPath : JSString) :
    List Dirent → List JSString → List JSString
  | [], files => files
  | entry :: rest, files => walkEntries join dirPath rest (walkEntry join dirPath entry files)
termination_by structural x => x
/-- The body of the loop of `walkDirectory` for one entry. -/
def walkEntry (join : JSString → JSString → JSString) (dirPath : JSString) :
    Dirent → List JSString → List JSString
  | .dir name listing, files =>
    if !SKIP_DIRS.contains name then walkDirectory join (join dirPath name) listing files
    else files
  | .file name size, files =>
    if !shouldSkipFile (join dirPath name) then
      match size with
      | some n => if n ≤ MAX_FILE_SIZE then files ++ [join dirPath name] else files
      | none => files
    else files
  | .other _, files => files
termination_by structural x => x
end

/-! ## Comment classifier and false-positive filter -/

/-- The constant `FALSE_POSITIVE_PATTERNS`, in the order of the source. -/
def FALSE_POSITIVE_PATTERNS : List Regex :=
  [ .wordI "example", .wordI "sample", .wordI "placeholder", .wordI "template",
    .wordI "dummy", .wordI "fake", .wordI "test", .wordI "demo",
    .seq (.litI "your") (.seq (Regex.opt (.unit (fun u => u == 45 || u == 95)))
      (Regex.alts [.litI "password", .litI "secret", .litI "key", .litI "token", .litI "api",
        .litI "server", .litI "db", .litI "database", .litI "user", .litI "org"])),
    .seq (.litI "xx") (Regex.plus (.charI 'x')),
    .seq (.lit "**") (Regex.plus (.char '*')),
    .lit "...",
    .litI "TODO", .litI "FIXME", .litI "HACK",
    .seq (.lit "$\x7b") (.seq (Regex.plus (.unit (fun u => u != 125))) (.lit "\x7d")),
    .seq (.lit "\x7b\x7b") (.seq (Regex.plus (.unit (fun u => u != 125))) (.lit "\x7d\x7d")),
    .seq (.char '%') (.unit (fun u => u == 115 || u == 100 || u == 102)),
    .seq (.char '<') (.seq (Regex.plus (.unit (fun u => (65 ≤ u && u ≤ 90) || u == 95)))
      (.char '>')),
    .lit "process.env.",
    .lit "os.environ",
    .wordI "getenv" ]

/-- The function `isComment`. -/
def isComment (line : JSString) : Bool :=
  let trimmed := trim line
  startsWith trimmed (str "//") || startsWith trimmed (str "#") ||
    startsWith trimmed (str "*") || startsWith trimmed (str "/*") ||
    startsWith trimmed (str "<!--") || startsWith trimmed (str "REM ") ||
    startsWith trimmed (str "echo ")

/-- Group 1 of the pattern of `ipMatch`: the text `\d+\.\d+\.\d+\.`. -/
def ipGroup1 : Regex :=
  .seq (Regex.plus (.unit isDigit)) (.seq (.char '.')
    (.seq (Regex.plus (.unit isDigit)) (.seq (.char '.')
      (.seq (Regex.plus (.unit isDigit)) (.char '.')))))

/-- Group 2 of the pattern of `ipMatch`: the text `\d+`. -/
def ipGroup2 : Regex :=
  Regex.plus (.unit isDigit)

/-- The version and package vocabulary tested on the line for the rule `private-ip`; with
the `i` flag the class `[^a-z]` excludes the ASCII letters of both cases. -/
def versionVocabulary : Regex :=
  Regex.alts [.litI "version",
    .seq (.litI "ver") (.unit (fun u => !((97 ≤ u && u ≤ 122) || (65 ≤ u && u ≤ 90)))),
    .litI "sdk", .litI "runtime", .litI "nuget", .litI "package", .litI "dotnet",
    .litI "assembly", .litI "scanner"]

/-- The pattern of a dependency line of `package.json`: a quoted key, a colon and a quoted
value that starts with an optional range character and a digit. -/
def dependencyLine : Regex :=
  .seq .bol (.seq (.star (.unit isWhiteSpace)) (.seq (.char '"')
    (.seq (Regex.plus (.unit (fun u => u != 34))) (.seq (.char '"')
      (.seq (.star (.unit isWhiteSpace)) (.seq (.char ':')
        (.seq (.star (.unit isWhiteSpace)) (.seq (.char '"')
          (.seq (Regex.opt (.unit (fun u =>
              u == 94 || u == 126 || u == 62 || u == 61 || u == 60 || u == 42)))
            (.unit isDigit))))))))))

/-- The function `isFalsePositive`. -/
def isFalsePositive (ruleId matchedText line filePath : JSString) : Bool :=
  if ruleId == str "private-ip" &&
      (match matchGroups ipGroup1 ipGroup2 matchedText with
        | some ipMatch => ipMatch.2.length > 3
        | none => false) then true
  else if ruleId == str "private-ip" && versionVocabulary.test line then true
  else
    let basename := toLowerCase (basename filePath)
    if ruleId == str "env-file-ref" &&
        (basename == str "package.json" || basename == str "package-lock.json") then true
    else if basename == str "package.json" && dependencyLine.test line then true
    else if FALSE_POSITIVE_PATTERNS.any (fun pattern => pattern.test line) then true
    else false

/-! ## Scanning a file -/

/-- A compiled rule. The pattern comes from `patterns/rules.json`; `exec` is what
`rule.regex.exec(line)` gives once `lastIndex` has been reset to `0`: `match[0]` of the
first match, or none. -/
structure Rule where
  id : JSString
  name : JSString
  severity : JSString
  description : JSString
  exec : JSString → Option JSString

/-- A finding, as `scanFile` builds it. -/
structure Finding where
  ruleId : JSString
  ruleName : JSString
  severity : JSString
  description : JSString
  file : JSString
  line : Nat
  matched : JSString
  lineContent : JSString
deriving DecidableEq

/-- The masking step of `scanFile`: the value of `masked` for a matched text. -/
def masked (matchedText : JSString) : JSString :=
  if matchedText.length > 12 then
    substring matchedText 0 6 ++ str "****" ++ substringFrom matchedText (matchedText.length - 4)
  else matchedText

/-- The call `replace(/\\/g, '/')`: every backslash becomes a slash. -/
def backslashesToSlashes (s : JSString) : JSString :=
  s.map (fun u => if u == 92 then 47 else u)

/-- The loop of `scanFile` over `compiledRules` for the line of index `i`; `relative` is
the function `path.relative`. -/
def scanRules (relative : JSString → JSString → JSString) (filePath baseDir : JSString)
    (i : Nat) (line : JSString) : List Rule → List Finding → List Finding
  | [], findings => findings
  | rule :: rest, findings =>
    match rule.exec line with
    | some matchedText =>
      if isFalsePositive rule.id matchedText line filePath then
        scanRules relative filePath baseDir i line rest findings
      else
        scanRules relative filePath baseDir i line rest (findings ++ [{
          ruleId := rule.id
          ruleName := rule.name
          severity := rule.severity
          description := rule.description
          file := backslashesToSlashes (relative baseDir filePath)
          line := i + 1
          matched := masked matchedText
          lineContent := substring (trim line) 0 200 }])
    | none => scanRules relative filePath baseDir i line rest findings

/-- The loop of `scanFile` over the lines, from index `i` on. -/
def scanLines (relative : JSString → JSString → JSString) (compiledRules : List Rule)
    (filePath baseDir : JSString) : Nat → List JSString → List Finding → List Finding
  | _, [], findings => findings
  | i, line :: rest, findings =>
    if (trim line).length == 0 then
      scanLines relative compiledRules filePath baseDir (i + 1) rest findings
    else if isComment line then
      scanLines relative compiledRules filePath baseDir (i + 1) rest findings
    else
      scanLines relative compiledRules filePath baseDir (i + 1) rest
        (scanRules relative filePath baseDir i line compiledRules findings)

/-- The function `scanFile`; `content` is what `readFileSync(filePath, 'utf8')` gives, none
when it throws. -/
def scanFile (relative : JSString → JSString → JSString) (compiledRules : List Rule)
    (filePath baseDir : JSString) (content : Option JSString) : List Finding :=
  match content with
  | none => []
  | some text => scanLines relative compiledRules filePath baseDir 0 (splitLines text) []

/-! ## Summary and grouping of the scan driver -/

/-- The object `summary` of the handler of `/api/scan-stream`. -/
structure ScanSummary where
  totalFiles : Nat
  totalFindings : Nat
  critical : Nat
  high : Nat
  medium : Nat
  low : Nat
deriving DecidableEq

/-- Building `summary` from the walked `files` and from `allFindings`. -/
def buildSummary (files : List JSString) (allFindings : List Finding) : ScanSummary where
  totalFiles := files.length
  totalFindings := allFindings.length
  critical := (allFindings.filter (fun f => f.severity == str "critical")).length
  high := (allFindings.filter (fun f => f.severity == str "high")).length
  medium := (allFindings.filter (fun f => f.severity == str "medium")).length
  low := (allFindings.filter (fun f => f.severity == str "low")).length

/-- The property names every object inherits from `Object.prototype`. -/
def objectPrototypeKeys : List JSString :=
  ["constructor", "__defineGetter__", "__defineSetter__", "hasOwnProperty",
   "__lookupGetter__", "__lookupSetter__", "isPrototypeOf", "propertyIsEnumerable",
   "toString", "valueOf", "__proto__", "toLocaleString"].map str

/-- The object `grouped`: its own properties in creation order, each an array. The
elements are left open, so that a finding can be told from an equal one by pairing it with
its position in `allFindings` (objects have identity). -/
abbrev Grouped (α : Type) := List (JSString × List α)

/-- What reading `grouped[key]` gives. -/
inductive PropertyValue (α : Type) where
  /-- An own property: the array stored under the key. -/
  | array (items : List α)
  /-- A property inherited from `Object.prototype`: a truthy value without a `push`. -/
  | inherited
  /-- No such property. -/
  | undefined

/-- The own property `key` of `grouped`, if there is one. -/
def ownProperty {α : Type} (grouped : Grouped α) (key : JSString) : Option (List α) :=
  match grouped with
  | [] => none
  | (k, items) :: rest => if k == key then some items else ownProperty rest key

/-- Reading `grouped[key]`: own properties first, then the prototype. -/
def getProperty {α : Type} (grouped : Grouped α) (key : JSString) : PropertyValue α :=
  match ownProperty grouped key with
  | some items => .array items
  | none => if objectPrototypeKeys.contains key then .inherited else .undefined

/-- The call `grouped[key].push(x)` on the array stored under the own property `key`. -/
def pushTo {α : Type} (key : JSString) (x : α) : Grouped α → Grouped α
  | [] => []
  | (k, items) :: rest =>
    if k == key then (k, items ++ [x]) :: rest else (k, items) :: pushTo key x rest

/-- One iteration of the grouping loop; none when `push` is not a function of the value
read (a `TypeError`, after which the handler sends `error` and no `complete`). -/
def groupStep {α : Type} (file : α → JSString) (grouped : Grouped α) (finding : α) :
    Option (Grouped α) :=
  let grouped1 :=
    match getProperty grouped (file finding) with
    | .undefined => grouped ++ [(file finding, [])]
    | _ => grouped
  match getProperty grouped1 (file finding) with
  | .array _ => some (pushTo (file finding) finding grouped1)
  | _ => none

/-- The grouping loop from a given state of `grouped`. -/
def groupLoop {α : Type} (file : α → JSString) : Grouped α → List α → Option (Grouped α)
  | grouped, [] => some grouped
  | grouped, finding :: rest =>
    match groupStep file grouped finding with
    | some grouped1 => groupLoop file grouped1 rest
    | none => none

/-- The grouping of `allFindings` by `file`, from the empty object. -/
def groupFindings {α : Type} (file : α → JSString) (allFindings : List α) : Option (Grouped α) :=
  groupLoop file [] allFindings

/-- The numeric value of a text of decimal digits. -/
def indexValue (key : JSString) : Nat :=
  key.foldl (fun acc u => acc * 10 + (u - 48)) 0

/-- Is the property key an array index: the canonical decimal form (digits only, no leading
zero unless it is `0` itself) of an integer below `2^32 - 1`. -/
def isArrayIndex (key : JSString) : Bool :=
  !key.isEmpty && key.all isDigit && (key == [48] || key.head? != some 48) &&
    decide (indexValue key < 4294967295)

/-- The order in which the own keys of `grouped` are enumerated (by `Object.keys`, and by
`JSON.stringify` when the `complete` event is sent): the array indices in ascending numeric
order, then the other keys in the order of their creation. -/
def ownKeys {α : Type} (grouped : Grouped α) : List JSString :=
  List.insertionSort (fun a b => indexValue a ≤ indexValue b)
      ((grouped.map Prod.fst).filter isArrayIndex) ++
    (grouped.map Prod.fst).filter (fun key => !isArrayIndex key)

/-! ## Notions used in the statements and proofs -/

/-- The state of the loop of `path.extname` with the indices it holds moved up by `k`. -/
def ExtnameState.shift (k : Nat) (st : ExtnameState) : ExtnameState :=
  { st with startDot := st.startDot.map (· + k), stop := st.stop.map (· + k) }

/-- The object `grouped` with each element replaced by its image under `m`. -/
def Grouped.image {α β : Type} (m : β → α) (g : Grouped β) : Grouped α :=
  g.map (fun e => (e.1, e.2.map m))

/-- The regular file `name` lies in the tree under `entries`, inside the nested
directories named by `chain` (outermost first), each of them readable. -/
inductive FileAt : List Dirent → List JSString → JSString → Prop where
  | direct {entries : List Dirent} {name : JSString} {size : Option Nat} :
    Dirent.file name size ∈ entries → FileAt entries [] name
  | nested {entries sub : List Dirent} {d : JSString} {chain : List JSString} {name : JSString} :
    Dirent.dir d (some sub) ∈ entries → FileAt sub chain name → FileAt entries (d :: chain) name

mutual
/-- The tree with nothing left beneath the directories named in `SKIP_DIRS`. -/
def pruneListing : Option (List Dirent) → Option (List Dirent)
  | none => none
  | some entries => some (pruneEntries entries)
termination_by structural x => x
/-- The entries with nothing left beneath the directories named in `SKIP_DIRS`. -/
def pruneEntries : List Dirent → List Dirent
  | [] => []
  | entry :: rest => pruneEntry entry :: pruneEntries rest
termination_by structural x => x
/-- The entry with nothing left beneath the directories named in `SKIP_DIRS`. -/
def pruneEntry : Dirent → Dirent
  | .dir name listing =>
    if SKIP_DIRS.contains name then .dir name none else .dir name (pruneListing listing)
  | .file name size => .file name size
  | .other name => .other name
termination_by structural x => x
end

/-- The pattern `r` has a match that starts where `s` is left to read and ends where `t` is
left, whatever code unit comes before. -/
def Reach (r : Regex) (s t : JSString) : Prop :=
  ∀ prev, ∃ q, (⟨q, t⟩ : Pos) ∈ r.run ⟨prev, s⟩

/-- The first match of `r` that backtracking finds from where `s` is left to read ends where
`t` is left, whatever code unit comes before. -/
def First (r : Regex) (s t : JSString) : Prop :=
  ∀ prev, ∃ q, (r.run ⟨prev, s⟩).head? = some ⟨q, t⟩

/-! ## Sample inputs -/

/-- The function `path.relative` for a base directory that is a prefix of the path. -/
def relativeTo (baseDir filePath : JSString) : JSString :=
  filePath.drop (baseDir.length + 1)

/-- The function `path.join` on a directory without a trailing slash and an entry name. -/
def joinPlain (dirPath name : JSString) : JSString :=
  dirPath ++ str "/" ++ name

/-- A rule that reports the quoted value of a `password = "..."` assignment. -/
def passwordRule : Rule where
  id := str "generic-password"
  name := str "Generic Password"
  severity := str "high"
  description := str "Hardcoded password"
  exec := fun line =>
    if includes line (str "hunter2_real_value_123") then some (str "hunter2_real_value_123")
    else none

/-- The finding that `passwordRule` yields on line 2 of `/repo/config.py`. -/
def passwordFinding : Finding where
  ruleId := str "generic-password"
  ruleName := str "Generic Password"
  severity := str "high"
  description := str "Hardcoded password"
  file := str "config.py"
  line := 2
  matched := str "hunter****_123"
  lineContent := str "password = \"hunter2_real_value_123\""

/-- A file with a comment line that holds the secret and a code line that holds it too. -/
def configText : JSString :=
  str "# password = \"hunter2_real_value_123\"\npassword = \"hunter2_real_value_123\"\n"

/-- Three findings of severities critical, low and high. -/
def sampleFindings : List Finding :=
  [ { passwordFinding with severity := str "critical" },
    { passwordFinding with severity := str "low", file := str "a.js" },
    passwordFinding ]

/-- The object `grouped` for `sampleFindings`, each finding paired with its position. -/
def sampleGrouped : Grouped (Nat × Finding) :=
  [ (str "config.py", [(0, { passwordFinding with severity := str "critical" }),
      (2, passwordFinding)]),
    (str "a.js", [(1, { passwordFinding with severity := str "low", file := str "a.js" })]) ]

/-- A repository with `index.js` and a key in `node_modules/leftpad/secret.js`. -/
def sampleTree : List Dirent :=
  [ .dir (str "node_modules")
      (some [.dir (str "leftpad") (some [.file (str "secret.js") (some 120)])]),
    .dir (str "src") (some [.file (str "main.js") (some 300)]),
    .file (str "index.js") (some 2048) ]

/-- The line of the README scenario. -/
def awsLine : JSString := str "AWS_KEY=AKIAEXAMPLE1234567890"

/-- A rule that reports the AWS access key id of `awsLine`: `AKIA` and 16 more characters. -/
def awsRule : Rule where
  id := str "aws-access-key"
  name := str "AWS Access Key"
  severity := str "critical"
  description := str "AWS access key id"
  exec := fun line =>
    if includes line (str "AKIAEXAMPLE123456789") then some (str "AKIAEXAMPLE123456789")
    else none

/-- What one rule adds to `findings` on the line of index `i`: the body of the loop of
`scanFile` over `compiledRules`. -/
def ruleFinding (relative : JSString → JSString → JSString) (filePath baseDir : JSString)
    (i : Nat) (line : JSString) (rule : Rule) : Option Finding :=
  match rule.exec line with
  | some matchedText =>
    if isFalsePositive rule.id matchedText line filePath then none
    else some {
      ruleId := rule.id
      ruleName := rule.name
      severity := rule.severity
      description := rule.description
      file := backslashesToSlashes (relative baseDir filePath)
      line := i + 1
      matched := masked matchedText
      lineContent := substring (trim line) 0 200 }
  | none => none

/-- A line with the secret of `passwordRule` twice. -/
def doubledText : JSString :=
  str "a = \"hunter2_real_value_123\"; b = \"hunter2_real_value_123\""

/-- The only line of `config.py` in the first end-to-end scenario. -/
def passwordLine : JSString := str "password = \"hunter2_real_value_123\""

/-- The secret of the first end-to-end scenario. -/
def passwordSecret : JSString := str "hunter2_real_value_123"

/-- The distinct members of a list, in the order in which each first appears. -/
def firstSeen : List JSString → List JSString
  | [] => []
  | x :: rest => x :: (firstSeen rest).filter (fun y => y != x)

/-- Two findings in the files `10` and `2` at the root of the scan, in this order. -/
def numberedFindings : List Finding :=
  [ { passwordFinding with file := str "10" }, { passwordFinding with file := str "2" } ]

/-- A finding in a file named `constructor` at the root of the scan. -/
def constructorFinding : Finding :=
  { passwordFinding with file := str "constructor" }

/-! ## Stages of the false-positive filter, as the specification names them -/

/-- The stage of the rule `private-ip`: the rule id is `private-ip` and either group 2 of
`ipMatch` has more than 3 digits or the line matches the version and package vocabulary. -/
def privateIpStage (ruleId matchedText line : JSString) : Bool :=
  ruleId == str "private-ip" &&
    ((match matchGroups ipGroup1 ipGroup2 matchedText with
      | some ipMatch => decide (ipMatch.2.length > 3)
      | none => false) || versionVocabulary.test line)

/-- The stage of the rule `env-file-ref`: the rule id is `env-file-ref` and the lower-cased
basename is `package.json` or `package-lock.json`. -/
def envFileRefStage (ruleId filePath : JSString) : Bool :=
  ruleId == str "env-file-ref" &&
    (toLowerCase (basename filePath) == str "package.json" ||
      toLowerCase (basename filePath) == str "package-lock.json")

/-- The manifest stage: the lower-cased basename is `package.json` and the line is a
dependency declaration. -/
def manifestStage (line filePath : JSString) : Bool :=
  toLowerCase (basename filePath) == str "package.json" && dependencyLine.test line

/-- The generic stage: some entry of `FALSE_POSITIVE_PATTERNS` matches the line. -/
def genericStage (line : JSString) : Bool :=
  FALSE_POSITIVE_PATTERNS.any (fun pattern => pattern.test line)

/-- The four stages on an input, in the order of the source. -/
def stages (ruleId matchedText line filePath : JSString) : List Bool :=
  [privateIpStage ruleId matchedText line, envFileRefStage ruleId filePath,
    manifestStage line filePath, genericStage line]

/-- Going through stages one after the other and returning true at the first that
rejects, false when none does. -/
def rejectsInOrder : List Bool → Bool
  | [] => false
  | stage :: rest => if stage then true else rejectsInOrder rest

/-! # Theorems -/

/-! ## Findings of `scanFile` -/

theorem scanRules_mem (relative : JSString → JSString → JSString) (filePath baseDir : JSString)
    (i : Nat) (line : JSString) (rules : List Rule) (findings : List Finding) (f : Finding)
    (hf : f ∈ scanRules relative filePath baseDir i line rules findings) :
    f ∈ findings ∨ ∃ rule ∈ rules, ∃ t, rule.exec line = some t ∧
      isFalsePositive rule.id t line filePath = false ∧
      f = { ruleId := rule.id, ruleName := rule.name, severity := rule.severity,
            description := rule.description,
            file := backslashesToSlashes (relative baseDir filePath),
            line := i + 1, matched := masked t,
            lineContent := substring (trim line) 0 200 } := by
  induction rules generalizing findings with
  | nil => exact Or.inl hf
  | cons rule rest ih =>
    unfold scanRules at hf
    split at hf
    · rename_i t ht
      split at hf
      · rcases ih _ hf with h | ⟨r, hr, h⟩
        · exact Or.inl h
        · exact Or.inr ⟨r, List.mem_cons_of_mem _ hr, h⟩
      · rename_i hfp
        rcases ih _ hf with h | ⟨r, hr, h⟩
        · rcases List.mem_append.mp h with h | h
          · exact Or.inl h
          · refine Or.inr ⟨rule, List.mem_cons_self _ _, t, ht, ?_, ?_⟩
            · simpa using hfp
            · simpa using h
        · exact Or.inr ⟨r, List.mem_cons_of_mem _ hr, h⟩
    · rcases ih _ hf with h | ⟨r, hr, h⟩
      · exact Or.inl h
      · exact Or.inr ⟨r, List.mem_cons_of_mem _ hr, h⟩

theorem scanLines_mem (relative : JSString → JSString → JSString) (rules : List Rule)
    (filePath baseDir : JSString) (i : Nat) (lines : List JSString) (findings : List Finding)
    (f : Finding)
    (hf : f ∈ scanLines relative rules filePath baseDir i lines findings) :
    f ∈ findings ∨ ∃ j line, lines[j]? = some line ∧ (trim line).length ≠ 0 ∧
      isComment line = false ∧ ∃ rule ∈ rules, ∃ t, rule.exec line = some t ∧
      isFalsePositive rule.id t line filePath = false ∧
      f = { ruleId := rule.id, ruleName := rule.name, severity := rule.severity,
            description := rule.description,
            file := backslashesToSlashes (relative baseDir filePath),
            line := i + j + 1, matched := masked t,
            lineContent := substring (trim line) 0 200 } := by
  induction lines generalizing i findings with
  | nil => exact Or.inl hf
  | cons line rest ih =>
    have shift : (∃ j l, rest[j]? = some l ∧ (trim l).length ≠ 0 ∧
        isComment l = false ∧ ∃ rule ∈ rules, ∃ t, rule.exec l = some t ∧
        isFalsePositive rule.id t l filePath = false ∧
        f = { ruleId := rule.id, ruleName := rule.name, severity := rule.severity,
              description := rule.description,
              file := backslashesToSlashes (relative baseDir filePath),
              line := i + 1 + j + 1, matched := masked t,
              lineContent := substring (trim l) 0 200 }) →
        ∃ j l, (line :: rest)[j]? = some l ∧ (trim l).length ≠ 0 ∧
        isComment l = false ∧ ∃ rule ∈ rules, ∃ t, rule.exec l = some t ∧
        isFalsePositive rule.id t l filePath = false ∧
        f = { ruleId := rule.id, ruleName := rule.name, severity := rule.severity,
              description := rule.description,
              file := backslashesToSlashes (relative baseDir filePath),
              line := i + j + 1, matched := masked t,
              lineContent := substring (trim l) 0 200 } := by
      rintro ⟨j, l, hj, h1, h2, rule, hr, t, ht, hfp, hEq⟩
      refine ⟨j + 1, l, by simpa using hj, h1, h2, rule, hr, t, ht, hfp, ?_⟩
      rw [hEq]
      have : i + 1 + j + 1 = i + (j + 1) + 1 := by omega
      rw [this]
    unfold scanLines at hf
    split at hf
    · rcases ih _ _ hf with h | h
      · exact Or.inl h
      · exact Or.inr (shift h)
    · rename_i hblank
      split at hf
      · rcases ih _ _ hf with h | h
        · exact Or.inl h
        · exact Or.inr (shift h)
      · rename_i hcomment
        rcases ih _ _ hf with h | h
        · rcases scanRules_mem _ _ _ _ _ _ _ _ h with h | ⟨rule, hr, t, ht, hfp, hEq⟩
          · exact Or.inl h
          · refine Or.inr ⟨0, line, by simp, ?_, by simpa using hcomment, rule, hr, t, ht, hfp,
              by simpa using hEq⟩
            simpa using hblank
        · exact Or.inr (shift h)

/-- Every finding of `scanFile` comes from a line of the content that is neither blank nor a
comment and from a rule whose match on that line is not a false positive. -/
theorem scanFile_mem (relative : JSString → JSString → JSString) (rules : List Rule)
    (filePath baseDir : JSString) (content : Option JSString) (f : Finding)
    (hf : f ∈ scanFile relative rules filePath baseDir content) :
    ∃ text, content = some text ∧ ∃ j line, (splitLines text)[j]? = some line ∧
      (trim line).length ≠ 0 ∧ isComment line = false ∧
      ∃ rule ∈ rules, ∃ t, rule.exec line = some t ∧
      isFalsePositive rule.id t line filePath = false ∧
      f = { ruleId := rule.id, ruleName := rule.name, severity := rule.severity,
            description := rule.description,
            file := backslashesToSlashes (relative baseDir filePath),
            line := j + 1, matched := masked t,
            lineContent := substring (trim line) 0 200 } := by
  unfold scanFile at hf
  split at hf
  · simp at hf
  · rename_i text
    refine ⟨text, rfl, ?_⟩
    rcases scanLines_mem _ _ _ _ _ _ _ _ hf with h | ⟨j, line, h⟩
    · simp at h
    · exact ⟨j, line, by simpa using h⟩

theorem masked_eq (t : JSString) :
    masked t = if 12 < t.length then t.take 6 ++ str "****" ++ t.drop (t.length - 4) else t := by
  unfold masked
  by_cases h : 12 < t.length
  · have h1 : substring t 0 6 = t.take 6 := by
      unfold substring
      have : min 6 t.length = 6 := by omega
      simp [this]
    have h2 : substringFrom t (t.length - 4) = t.drop (t.length - 4) := by
      unfold substringFrom substring
      have e1 : min (t.length - 4) t.length = t.length - 4 := by omega
      simp only [e1, Nat.min_self]
      have e2 : max (t.length - 4) t.length = t.length := by omega
      rw [e2]
      apply List.take_of_length_le
      simp
    simp [h, h1, h2]
  · simp [h]

/-- C5: a finding of `scanFile` carries the number of a line of the content, and that line
is not a comment line: `isComment` is false for it, whatever the rules match. -/
theorem scanFile_skips_comment_lines (relative : JSString → JSString → JSString)
    (rules : List Rule) (filePath baseDir : JSString) (content : Option JSString) (f : Finding)
    (hf : f ∈ scanFile relative rules filePath baseDir content) :
    ∃ text line, content = some text ∧ 1 ≤ f.line ∧
      (splitLines text)[f.line - 1]? = some line ∧ isComment line = false := by
  obtain ⟨text, hc, j, line, hj, _, hcom, _, _, _, _, _, hEq⟩ := scanFile_mem _ _ _ _ _ _ hf
  refine ⟨text, line, hc, by rw [hEq]; simp, ?_, hcom⟩
  rw [hEq]
  simpa using hj

theorem scanFile_skips_comment_lines_witness :
    passwordFinding ∈ scanFile relativeTo [passwordRule] (str "/repo/config.py") (str "/repo")
        (some configText) ∧
      isComment (str "# password = \"hunter2_real_value_123\"") = true ∧
      ∃ text line, some configText = some text ∧ 1 ≤ passwordFinding.line ∧
        (splitLines text)[passwordFinding.line - 1]? = some line ∧ isComment line = false :=
  ⟨by decide, by decide, scanFile_skips_comment_lines relativeTo [passwordRule]
    (str "/repo/config.py") (str "/repo") (some configText) passwordFinding (by decide)⟩

theorem severity_counts (fs : List Finding)
    (h : ∀ f ∈ fs, f.severity = str "critical" ∨ f.severity = str "high" ∨
      f.severity = str "medium" ∨ f.severity = str "low") :
    (fs.filter (fun f => f.severity == str "critical")).length +
      (fs.filter (fun f => f.severity == str "high")).length +
      (fs.filter (fun f => f.severity == str "medium")).length +
      (fs.filter (fun f => f.severity == str "low")).length = fs.length := by
  induction fs with
  | nil => rfl
  | cons f rest ih =>
    have ih1 := ih (fun g hg => h g (List.mem_cons_of_mem _ hg))
    have c1 : str "critical" ≠ str "high" := by decide
    have c2 : str "critical" ≠ str "medium" := by decide
    have c3 : str "critical" ≠ str "low" := by decide
    have c4 : str "high" ≠ str "medium" := by decide
    have c5 : str "high" ≠ str "low" := by decide
    have c6 : str "medium" ≠ str "low" := by decide
    rcases h f (List.mem_cons_self _ _) with e | e | e | e <;>
      simp [List.filter_cons, e, c1, c2, c3, c4, c5, c6, c1.symm, c2.symm, c3.symm, c4.symm,
        c5.symm, c6.symm] <;> omega

/-- C7: when every finding has one of the severities critical, high, medium and low, the
summary built by the scan driver has `totalFindings` equal to the number of findings and
`critical + high + medium + low` equal to `totalFindings`. -/
theorem summary_invariant (files : List JSString) (allFindings : List Finding)
    (h : ∀ f ∈ allFindings, f.severity = str "critical" ∨ f.severity = str "high" ∨
      f.severity = str "medium" ∨ f.severity = str "low") :
    (buildSummary files allFindings).totalFindings = allFindings.length ∧
      (buildSummary files allFindings).critical + (buildSummary files allFindings).high +
        (buildSummary files allFindings).medium + (buildSummary files allFindings).low =
      (buildSummary files allFindings).totalFindings := by
  refine ⟨rfl, ?_⟩
  simpa [buildSummary] using severity_counts allFindings h

theorem summary_invariant_witness :
    (buildSummary [str "/repo/config.py"] sampleFindings).totalFindings = sampleFindings.length ∧
      (buildSummary [str "/repo/config.py"] sampleFindings).critical +
        (buildSummary [str "/repo/config.py"] sampleFindings).high +
        (buildSummary [str "/repo/config.py"] sampleFindings).medium +
        (buildSummary [str "/repo/config.py"] sampleFindings).low =
      (buildSummary [str "/repo/config.py"] sampleFindings).totalFindings :=
  summary_invariant [str "/repo/config.py"] sampleFindings (by decide)

/-- C9: the entries `.min.js`, `.min.css` and `.DS_Store` of `SKIP_EXTENSIONS` never take
effect. `path.extname` returns what follows the last dot only, lower-cased before the
lookup, so `app.min.js`, `site.min.css` and `foo.DS_Store` end with an entry of the set and
are not skipped. -/
theorem shouldSkipFile_misses_compound_extensions :
    str ".min.js" ∈ SKIP_EXTENSIONS ∧ str ".min.css" ∈ SKIP_EXTENSIONS ∧
      str ".DS_Store" ∈ SKIP_EXTENSIONS ∧
      extname (str "app.min.js") = str ".js" ∧
      shouldSkipFile (str "app.min.js") = false ∧
      shouldSkipFile (str "site.min.css") = false ∧
      shouldSkipFile (str "foo.DS_Store") = false := by
  decide

theorem extnameLoop_done (st : ExtnameState) (h : st.done = true) (n : Nat) (rev : JSString) :
    extnameLoop st n rev = st := by
  induction rev generalizing n with
  | nil => cases n <;> rfl
  | cons c rev ih =>
    cases n with
    | zero => rfl
    | succ n =>
      have e : extnameStep st n c = st := by simp [extnameStep, h]
      rw [extnameLoop, e, ih]

theorem basenameLoop_done (st : BasenameState) (h : st.done = true) (n : Nat) (rev : JSString) :
    basenameLoop st n rev = st := by
  induction rev generalizing n with
  | nil => cases n <;> rfl
  | cons c rev ih =>
    cases n with
    | zero => rfl
    | succ n =>
      have e : basenameStep st n c = st := by simp [basenameStep, h]
      rw [basenameLoop, e, ih]

theorem extnameStep_shift (k i c : Nat) (st : ExtnameState) (hc : c ≠ 47)
    (hd : st.done = false) (hinv : st.stop = none ∨ st.matchedSlash = false) :
    extnameStep (st.shift k) (i + k) c = (extnameStep st i c).shift k ∧
      (extnameStep st i c).done = false ∧ (extnameStep st i c).matchedSlash = false ∧
      (extnameStep st i c).startPart = st.startPart := by
  obtain ⟨sd, sp, e, ms, pds, d⟩ := st
  simp only at hd hinv
  subst hd
  cases sd <;> cases e <;> by_cases h46 : c = 46 <;> by_cases hp : pds = 1 <;>
    simp [extnameStep, ExtnameState.shift, hc, h46, hp] <;> simp_all <;> omega

theorem extnameLoop_shift (k : Nat) (rest rev : JSString) (st : ExtnameState)
    (hrev : ∀ c ∈ rev, c ≠ 47) (hd : st.done = false)
    (hinv : st.stop = none ∨ st.matchedSlash = false) :
    extnameLoop (st.shift k) (rev.length + k) (rev ++ rest) =
        extnameLoop ((extnameLoop st rev.length rev).shift k) k rest ∧
      (extnameLoop st rev.length rev).done = false ∧
      (extnameLoop st rev.length rev).startPart = st.startPart ∧
      (rev ≠ [] → (extnameLoop st rev.length rev).matchedSlash = false) := by
  induction rev generalizing st with
  | nil => simp [extnameLoop, hd]
  | cons c rev ih =>
    obtain ⟨h1, h2, h3, h4⟩ := extnameStep_shift k rev.length c st
      (hrev c (List.mem_cons_self _ _)) hd hinv
    obtain ⟨i1, i2, i3, i4⟩ := ih (extnameStep st rev.length c)
      (fun x hx => hrev x (List.mem_cons_of_mem _ hx)) h2 (Or.inr h3)
    have e : (c :: rev).length + k = (rev.length + k) + 1 := by simp; omega
    have e2 : (c :: rev).length = rev.length + 1 := by simp
    rw [e, e2, List.cons_append]
    simp only [extnameLoop]
    rw [h1, i1]
    refine ⟨rfl, i2, by rw [i3, h4], fun _ => ?_⟩
    by_cases hne : rev = []
    · subst hne
      simpa [extnameLoop] using h3
    · exact i4 hne

theorem drop_component (dir name : JSString) (d : Nat) :
    (dir ++ 47 :: name).drop (d + (dir.length + 1)) = name.drop d := by
  have e : dir ++ 47 :: name = (dir ++ [47]) ++ name := by simp
  have e2 : d + (dir.length + 1) = (dir ++ [47]).length + d := by simp; omega
  rw [e, e2, List.drop_append]

theorem extname_component (dir name : JSString) (hne : name ≠ []) (hs : ∀ c ∈ name, c ≠ 47) :
    extname (dir ++ 47 :: name) = extname name := by
  have hrev : ∀ c ∈ name.reverse, c ≠ 47 := fun c hc => hs c (List.mem_reverse.mp hc)
  have hne2 : name.reverse ≠ [] := by simpa using hne
  obtain ⟨h1, h2, h3, h4⟩ := extnameLoop_shift (dir.length + 1) (47 :: dir.reverse) name.reverse
    ⟨none, 0, none, true, 0, false⟩ hrev rfl (Or.inl rfl)
  have h4 := h4 hne2
  simp only [List.length_reverse] at h1 h2 h3 h4
  have hsh : ExtnameState.shift (dir.length + 1) ⟨none, 0, none, true, 0, false⟩ =
      ⟨none, 0, none, true, 0, false⟩ := rfl
  rw [hsh] at h1
  unfold extname
  have hl : (dir ++ 47 :: name).length = name.length + (dir.length + 1) := by simp; omega
  have hr : (dir ++ 47 :: name).reverse = name.reverse ++ 47 :: dir.reverse := by simp
  rw [hl, hr, h1]
  generalize extnameLoop ⟨none, 0, none, true, 0, false⟩ name.length name.reverse = S at *
  obtain ⟨sd, sp, e, ms, pds, d⟩ := S
  simp only at h2 h3 h4
  subst h2 h3 h4
  have step : extnameLoop (ExtnameState.shift (dir.length + 1) ⟨sd, 0, e, false, pds, false⟩)
      (dir.length + 1) (47 :: dir.reverse) =
      ⟨sd.map (· + (dir.length + 1)), dir.length + 1, e.map (· + (dir.length + 1)), false, pds,
        true⟩ := by
    rw [extnameLoop]
    have : extnameStep (ExtnameState.shift (dir.length + 1) ⟨sd, 0, e, false, pds, false⟩)
        dir.length 47 =
        ⟨sd.map (· + (dir.length + 1)), dir.length + 1, e.map (· + (dir.length + 1)), false, pds,
          true⟩ := by
      simp [extnameStep, ExtnameState.shift]
    rw [this, extnameLoop_done _ rfl]
  rw [step]
  cases sd with
  | none => rfl
  | some d =>
    cases e with
    | none => rfl
    | some e =>
      simp only [Option.map_some']
      have c1 : (d + (dir.length + 1) + 1 == e + (dir.length + 1)) = (d + 1 == e) := by
        simp; omega
      have c2 : (d + (dir.length + 1) == dir.length + 1 + 1) = (d == 0 + 1) := by
        simp; omega
      have c3 : e + (dir.length + 1) - (d + (dir.length + 1)) = e - d := by omega
      rw [c1, c2, c3, drop_component]
theorem basenameLoop_noslash (st : BasenameState) (m : Nat) (rev rest : JSString)
    (hd : st.done = false) (he : st.stop.isNone = false) (hrev : ∀ c ∈ rev, c ≠ 47) :
    basenameLoop st (rev.length + m) (rev ++ rest) = basenameLoop st m rest := by
  induction rev with
  | nil => simp
  | cons c rev ih =>
    have e : (c :: rev).length + m = (rev.length + m) + 1 := by simp; omega
    have hc : c ≠ 47 := hrev c (List.mem_cons_self _ _)
    have hstep : basenameStep st (rev.length + m) c = st := by
      simp [basenameStep, hd, he, hc]
    rw [e, List.cons_append, basenameLoop, hstep]
    exact ih (fun x hx => hrev x (List.mem_cons_of_mem _ hx))

theorem basenameLoop_component (m : Nat) (name rest : JSString) (hne : name ≠ [])
    (hs : ∀ c ∈ name, c ≠ 47) :
    basenameLoop ⟨0, none, true, false⟩ (name.length + m) (name.reverse ++ rest) =
      basenameLoop ⟨0, some (name.length + m), false, false⟩ m rest := by
  have hrev : ∀ c ∈ name.reverse, c ≠ 47 := fun c hc => hs c (List.mem_reverse.mp hc)
  have hl : name.length = name.reverse.length := by simp
  rw [hl]
  generalize name.reverse = rev at *
  cases rev with
  | nil => simp at hl; exact absurd hl hne
  | cons c rev =>
    have e : (c :: rev).length + m = (rev.length + m) + 1 := by simp; omega
    have hc : c ≠ 47 := hrev c (List.mem_cons_self _ _)
    have hstep : basenameStep ⟨0, none, true, false⟩ (rev.length + m) c =
        ⟨0, some (rev.length + m + 1), false, false⟩ := by
      simp [basenameStep, hc]
    rw [e, List.cons_append, basenameLoop, hstep]
    exact basenameLoop_noslash _ m rev rest rfl rfl (fun x hx => hrev x (List.mem_cons_of_mem _ hx))

theorem basename_component (dir name : JSString) (hne : name ≠ []) (hs : ∀ c ∈ name, c ≠ 47) :
    basename (dir ++ 47 :: name) = name := by
  unfold basename
  have hl : (dir ++ 47 :: name).length = name.length + (dir.length + 1) := by simp; omega
  have hr : (dir ++ 47 :: name).reverse = name.reverse ++ 47 :: dir.reverse := by simp
  rw [hl, hr, basenameLoop_component _ _ _ hne hs, basenameLoop]
  have hstep : basenameStep ⟨0, some (name.length + (dir.length + 1)), false, false⟩ dir.length 47
      = ⟨dir.length + 1, some (name.length + (dir.length + 1)), false, true⟩ := by
    simp [basenameStep]
  rw [hstep, basenameLoop_done _ rfl]
  simp only
  have e : dir.length + 1 = 0 + (dir.length + 1) := by omega
  rw [Nat.add_sub_cancel]
  nth_rewrite 1 [e]
  rw [drop_component]
  simp

theorem basename_plain (name : JSString) (hne : name ≠ []) (hs : ∀ c ∈ name, c ≠ 47) :
    basename name = name := by
  unfold basename
  have h := basenameLoop_component 0 name [] hne hs
  simp only [Nat.add_zero, List.append_nil] at h
  rw [h]
  simp [basenameLoop]
/-- C10: a file whose basename starts with `.` and does not contain `env` is skipped, and
the environment files `.env` and `.env.local` are kept, named on their own or in any
directory `dir`. -/
theorem shouldSkipFile_dotfiles (filePath dir : JSString) :
    (startsWith (basename filePath) (str ".") = true →
      includes (basename filePath) (str "env") = false → shouldSkipFile filePath = true) ∧
    shouldSkipFile (str ".env") = false ∧ shouldSkipFile (str ".env.local") = false ∧
    shouldSkipFile (dir ++ str "/.env") = false ∧
    shouldSkipFile (dir ++ str "/.env.local") = false := by
  refine ⟨?_, by decide, by decide, ?_, ?_⟩
  · intro h1 h2
    simp [shouldSkipFile, h1, h2]
  · have e : str "/.env" = 47 :: str ".env" := by decide
    unfold shouldSkipFile
    rw [e, basename_component dir _ (by decide) (by decide),
      extname_component dir _ (by decide) (by decide)]
    decide
  · have e : str "/.env.local" = 47 :: str ".env.local" := by decide
    unfold shouldSkipFile
    rw [e, basename_component dir _ (by decide) (by decide),
      extname_component dir _ (by decide) (by decide)]
    decide

theorem shouldSkipFile_dotfiles_witness :
    startsWith (basename (str "/repo/.gitignore")) (str ".") = true ∧
      includes (basename (str "/repo/.gitignore")) (str "env") = false ∧
      shouldSkipFile (str "/repo/.gitignore") = true :=
  ⟨by decide, by decide,
    (shouldSkipFile_dotfiles (str "/repo/.gitignore") []).1 (by decide) (by decide)⟩

/-! ## Grouping -/

theorem ownProperty_eq_none_iff {α : Type} (g : Grouped α) (k : JSString) :
    ownProperty g k = none ↔ k ∉ g.map Prod.fst := by
  induction g with
  | nil => simp [ownProperty]
  | cons e g ih =>
    obtain ⟨k', v⟩ := e
    by_cases h : k' = k
    · simp [ownProperty, h]
    · have h' : ¬ k = k' := fun e => h e.symm
      simp [ownProperty, h, h', ih]

theorem ownProperty_of_mem {α : Type} (g : Grouped α) (k : JSString) (items : List α)
    (hn : (g.map Prod.fst).Nodup) (hm : (k, items) ∈ g) : ownProperty g k = some items := by
  induction g with
  | nil => simp at hm
  | cons e g ih =>
    obtain ⟨k', v⟩ := e
    simp only [List.map_cons, List.nodup_cons] at hn
    rcases List.mem_cons.mp hm with h | h
    · cases h
      simp [ownProperty]
    · have hk : k' ≠ k := by
        intro e
        subst e
        exact hn.1 (List.mem_map.mpr ⟨(k', items), h, rfl⟩)
      simp [ownProperty, hk, ih hn.2 h]

theorem ownProperty_append {α : Type} (g : Grouped α) (k k' : JSString) (v : List α) :
    ownProperty (g ++ [(k, v)]) k' =
      match ownProperty g k' with
      | some items => some items
      | none => if k = k' then some v else none := by
  induction g with
  | nil => simp [ownProperty]
  | cons e g ih =>
    obtain ⟨k0, v0⟩ := e
    by_cases h : k0 = k'
    · simp [ownProperty, h]
    · simp [ownProperty, h, ih]

theorem ownProperty_pushTo {α : Type} (g : Grouped α) (k k' : JSString) (x : α) :
    ownProperty (pushTo k x g) k' =
      if k' = k then (ownProperty g k).map (· ++ [x]) else ownProperty g k' := by
  induction g with
  | nil => simp [ownProperty, pushTo]
  | cons e g ih =>
    obtain ⟨k0, v0⟩ := e
    by_cases h : k0 = k
    · subst h
      by_cases h' : k' = k0
      · subst h'
        simp [ownProperty, pushTo]
      · have h'' : ¬ k0 = k' := fun e => h' e.symm
        simp [ownProperty, pushTo, h', h'']
    · by_cases h' : k' = k
      · subst h'
        simp [ownProperty, pushTo, h, ih]
      · by_cases h0 : k0 = k'
        · simp [ownProperty, pushTo, h, h0, h']
        · simp [ownProperty, pushTo, h, h0, h', ih]

theorem keys_pushTo {α : Type} (g : Grouped α) (k : JSString) (x : α) :
    (pushTo k x g).map Prod.fst = g.map Prod.fst := by
  induction g with
  | nil => rfl
  | cons e g ih =>
    obtain ⟨k0, v0⟩ := e
    by_cases h : k0 = k
    · simp [pushTo, h]
    · simp [pushTo, h, ih]

theorem sizes_pushTo {α : Type} (g : Grouped α) (k : JSString) (x : α)
    (h : (ownProperty g k).isSome = true) :
    ((pushTo k x g).map (fun e => e.2.length)).sum = (g.map (fun e => e.2.length)).sum + 1 := by
  induction g with
  | nil => simp [ownProperty] at h
  | cons e g ih =>
    obtain ⟨k0, v0⟩ := e
    by_cases h0 : k0 = k
    · simp [pushTo, h0]
      omega
    · simp only [ownProperty, beq_iff_eq, h0, if_false] at h
      simp [pushTo, h0, ih h]
      omega

/-- What one iteration of the grouping loop does to `grouped` when it does not throw. -/
theorem groupStep_spec {α : Type} (file : α → JSString) (g g' : Grouped α) (x : α)
    (hn : (g.map Prod.fst).Nodup) (h : groupStep file g x = some g') :
    (g'.map Prod.fst).Nodup ∧
      ownProperty g' (file x) = some ((ownProperty g (file x)).getD [] ++ [x]) ∧
      (∀ k, k ≠ file x → ownProperty g' k = ownProperty g k) ∧
      (g'.map (fun e => e.2.length)).sum = (g.map (fun e => e.2.length)).sum + 1 := by
  unfold groupStep getProperty at h
  cases hown : ownProperty g (file x) with
  | some items =>
    simp only [hown] at h
    cases h
    refine ⟨by rw [keys_pushTo]; exact hn, by simp [ownProperty_pushTo, hown], ?_,
      sizes_pushTo _ _ _ (by simp [hown])⟩
    intro k hk
    simp [ownProperty_pushTo, hk]
  | none =>
    by_cases hp : file x ∈ objectPrototypeKeys
    · simp [hp, hown] at h
    · have hnew : ownProperty (g ++ [(file x, ([] : List α))]) (file x) = some [] := by
        simp [ownProperty_append, hown]
      simp [hp, hown, hnew] at h
      subst h
      refine ⟨?_, by simp [ownProperty_pushTo, hnew], ?_, ?_⟩
      · rw [keys_pushTo]
        simp only [List.map_append, List.map_cons, List.map_nil]
        apply List.Nodup.append hn (by simp)
        simp only [List.disjoint_singleton]
        exact (ownProperty_eq_none_iff g (file x)).mp hown
      · intro k hk
        have hk' : ¬ file x = k := fun e => hk e.symm
        simp only [ownProperty_pushTo, hk, if_false, ownProperty_append, hk']
        cases ownProperty g k <;> rfl
      · rw [sizes_pushTo _ _ _ (by simp [hnew])]
        simp
/-- What the grouping loop does to `grouped` when it does not throw: each key that is
there or is the `file` of an element holds its former array followed by the elements of
that `file`, in order. -/
theorem groupLoop_spec {α : Type} (file : α → JSString) (xs : List α) (g g' : Grouped α)
    (hn : (g.map Prod.fst).Nodup) (h : groupLoop file g xs = some g') :
    (g'.map Prod.fst).Nodup ∧
      (∀ k, ownProperty g' k =
        if (ownProperty g k).isSome || xs.any (fun x => file x == k) then
          some ((ownProperty g k).getD [] ++ xs.filter (fun x => file x == k))
        else none) ∧
      (g'.map (fun e => e.2.length)).sum = (g.map (fun e => e.2.length)).sum + xs.length := by
  induction xs generalizing g with
  | nil =>
    simp only [groupLoop, Option.some.injEq] at h
    subst h
    refine ⟨hn, fun k => ?_, by simp⟩
    cases ownProperty g k <;> simp
  | cons x xs ih =>
    unfold groupLoop at h
    cases hstep : groupStep file g x with
    | none => simp [hstep] at h
    | some g1 =>
      simp only [hstep] at h
      obtain ⟨s1, s2, s3, s4⟩ := groupStep_spec file g g1 x hn hstep
      obtain ⟨i1, i2, i3⟩ := ih g1 s1 h
      refine ⟨i1, fun k => ?_, by rw [i3, s4]; simp; omega⟩
      rw [i2 k]
      by_cases hk : k = file x
      · subst hk
        simp [s2]
      · have hk' : ¬ file x = k := fun e => hk e.symm
        simp [s3 k hk, hk']
theorem ownProperty_image {α β : Type} (m : β → α) (g : Grouped β) (k : JSString) :
    ownProperty (g.image m) k = (ownProperty g k).map (List.map m) := by
  induction g with
  | nil => rfl
  | cons e g ih =>
    obtain ⟨k0, v0⟩ := e
    by_cases h : k0 = k
    · simp [Grouped.image, ownProperty, h]
    · simpa [Grouped.image, ownProperty, h] using ih

theorem pushTo_image {α β : Type} (m : β → α) (g : Grouped β) (k : JSString) (x : β) :
    pushTo k (m x) (g.image m) = (pushTo k x g).image m := by
  induction g with
  | nil => rfl
  | cons e g ih =>
    obtain ⟨k0, v0⟩ := e
    by_cases h : k0 = k
    · simp [Grouped.image, pushTo, h]
    · simpa [Grouped.image, pushTo, h] using ih

theorem groupStep_image {α β : Type} (m : β → α) (file : α → JSString) (g : Grouped β) (x : β) :
    groupStep file (g.image m) (m x) = (groupStep (fun y => file (m y)) g x).map (Grouped.image m) := by
  unfold groupStep getProperty
  simp only [ownProperty_image]
  cases hown : ownProperty g (file (m x)) with
  | some items => simp [ownProperty_image, hown, pushTo_image]
  | none =>
    by_cases hp : file (m x) ∈ objectPrototypeKeys
    · simp [hp, ownProperty_image, hown]
    · have e : g.image m ++ [(file (m x), [])] = Grouped.image m (g ++ [(file (m x), [])]) := by
        simp [Grouped.image]
      have hnew : ownProperty (g ++ [(file (m x), ([] : List β))]) (file (m x)) = some [] := by
        simp [ownProperty_append, hown]
      simp [hp, e, ownProperty_image, hnew, pushTo_image]

theorem groupLoop_image {α β : Type} (m : β → α) (file : α → JSString) (xs : List β)
    (g : Grouped β) :
    groupLoop file (g.image m) (xs.map m) =
      (groupLoop (fun y => file (m y)) g xs).map (Grouped.image m) := by
  induction xs generalizing g with
  | nil => rfl
  | cons x xs ih =>
    simp only [List.map_cons, groupLoop, groupStep_image]
    cases groupStep (fun y => file (m y)) g x with
    | none => rfl
    | some g1 => simpa using ih g1

theorem count_of_nodup {α : Type} [BEq α] [LawfulBEq α] (a : α) (l : List α) (hn : l.Nodup)
    (h : a ∈ l) : l.count a = 1 := by
  induction l with
  | nil => simp at h
  | cons b l ih =>
    simp only [List.nodup_cons] at hn
    by_cases e : b = a
    · subst e
      simp [List.count_cons, List.count_eq_zero_of_not_mem hn.1]
    · have hm : a ∈ l := by
        rcases List.mem_cons.mp h with h | h
        · exact absurd h.symm e
        · exact h
      simp [List.count_cons, e, ih hn.2 hm]

/-- C6: when the grouping of `allFindings` completes, the lengths of the groups of `grouped`
add up to the number of findings, no key occurs twice, and `grouped` is the grouping of the
findings paired with their positions, positions erased; there, the finding at position
`i` occurs exactly once in the group read under its own `file` and in no group of another
key. -/
theorem grouping_invariant (allFindings : List Finding) (grouped : Grouped Finding)
    (h : groupFindings Finding.file allFindings = some grouped) :
    (grouped.map (fun e => e.2.length)).sum = allFindings.length ∧
      (grouped.map Prod.fst).Nodup ∧
      ∃ tagged : Grouped (Nat × Finding),
        groupFindings (fun p => p.2.file) allFindings.enum = some tagged ∧
        grouped = tagged.image Prod.snd ∧
        ∀ i f, allFindings[i]? = some f →
          (∃ items, ownProperty tagged f.file = some items ∧ items.count (i, f) = 1) ∧
          ∀ k items, (k, items) ∈ tagged → k ≠ f.file → (i, f) ∉ items := by
  obtain ⟨n1, _, n3⟩ := groupLoop_spec Finding.file allFindings [] grouped (by simp) h
  have hnat := groupLoop_image Prod.snd Finding.file allFindings.enum []
  rw [List.enum_map_snd] at hnat
  have hnat' : groupFindings Finding.file allFindings =
      (groupFindings (fun p : Nat × Finding => p.2.file) allFindings.enum).map
        (Grouped.image Prod.snd) := hnat
  rw [h] at hnat'
  cases ht : groupFindings (fun p : Nat × Finding => p.2.file) allFindings.enum with
  | none => simp [ht] at hnat'
  | some tagged =>
    simp only [ht, Option.map_some', Option.some.injEq] at hnat'
    obtain ⟨t1, t2, _⟩ := groupLoop_spec (fun p : Nat × Finding => p.2.file) allFindings.enum []
      tagged (by simp) ht
    refine ⟨by simpa using n3, n1, tagged, rfl, hnat', ?_⟩
    intro i f hif
    have hmem : (i, f) ∈ allFindings.enum := List.mk_mem_enum_iff_getElem?.mpr hif
    have hnd : allFindings.enum.Nodup :=
      List.Nodup.of_map Prod.fst (List.nodup_enum_map_fst allFindings)
    constructor
    · refine ⟨allFindings.enum.filter (fun p => p.2.file == f.file), ?_, ?_⟩
      · rw [t2]
        have : allFindings.enum.any (fun p => p.2.file == f.file) = true :=
          List.any_eq_true.mpr ⟨(i, f), hmem, by simp⟩
        simp [ownProperty, this]
      · apply count_of_nodup _ _ (hnd.filter _)
        simp [List.mem_filter, hmem]
    · intro k items hk hne hin
      have hown := ownProperty_of_mem tagged k items t1 hk
      rw [t2] at hown
      split at hown
      · simp only [ownProperty, Option.getD_none, List.nil_append, Option.some.injEq] at hown
        rw [← hown] at hin
        have := (List.mem_filter.mp hin).2
        simp at this
        exact hne this.symm
      · cases hown

theorem grouping_invariant_witness :
    groupFindings (fun p : Nat × Finding => p.2.file) sampleFindings.enum = some sampleGrouped ∧
    (sampleGrouped.image Prod.snd).map (fun e => e.2.length) = [2, 1] ∧
    (((sampleGrouped.image Prod.snd).map (fun e => e.2.length)).sum = sampleFindings.length ∧
      ((sampleGrouped.image Prod.snd).map Prod.fst).Nodup ∧
      ∃ tagged : Grouped (Nat × Finding),
        groupFindings (fun p => p.2.file) sampleFindings.enum = some tagged ∧
        sampleGrouped.image Prod.snd = tagged.image Prod.snd ∧
        ∀ i f, sampleFindings[i]? = some f →
          (∃ items, ownProperty tagged f.file = some items ∧ items.count (i, f) = 1) ∧
          ∀ k items, (k, items) ∈ tagged → k ≠ f.file → (i, f) ∉ items) :=
  ⟨by decide, by decide,
    grouping_invariant sampleFindings (sampleGrouped.image Prod.snd) (by decide)⟩

/-! ## Directory walk -/

mutual
theorem walkDirectory_prune (join : JSString → JSString → JSString) (dirPath : JSString) :
    (listing : Option (List Dirent)) → (files : List JSString) →
    walkDirectory join dirPath (pruneListing listing) files =
      walkDirectory join dirPath listing files
  | none, _ => by simp [pruneListing, walkDirectory]
  | some entries, files => by
    simp only [pruneListing, walkDirectory]
    exact walkEntries_prune join dirPath entries files
termination_by structural x => x
theorem walkEntries_prune (join : JSString → JSString → JSString) (dirPath : JSString) :
    (entries : List Dirent) → (files : List JSString) →
    walkEntries join dirPath (pruneEntries entries) files =
      walkEntries join dirPath entries files
  | [], _ => by simp [pruneEntries, walkEntries]
  | entry :: rest, files => by
    simp only [pruneEntries, walkEntries]
    rw [walkEntry_prune join dirPath entry files, walkEntries_prune join dirPath rest]
termination_by structural x => x
theorem walkEntry_prune (join : JSString → JSString → JSString) (dirPath : JSString) :
    (entry : Dirent) → (files : List JSString) →
    walkEntry join dirPath (pruneEntry entry) files = walkEntry join dirPath entry files
  | .dir name listing, files => by
    by_cases h : name ∈ SKIP_DIRS
    · simp [pruneEntry, walkEntry, h]
    · simpa [pruneEntry, walkEntry, h] using
        walkDirectory_prune join (join dirPath name) listing files
  | .file _ _, _ => by simp [pruneEntry]
  | .other _, _ => by simp [pruneEntry]
termination_by structural x => x
end
theorem FileAt.mono {l1 l2 : List Dirent} {chain : List JSString} {name : JSString}
    (hsub : ∀ e ∈ l1, e ∈ l2) (h : FileAt l1 chain name) : FileAt l2 chain name := by
  cases h with
  | direct hm => exact .direct (hsub _ hm)
  | nested hm hs => exact .nested (hsub _ hm) hs

mutual
theorem walkDirectory_mem (join : JSString → JSString → JSString) (p : JSString) :
    (listing : Option (List Dirent)) → (dirPath : JSString) → (files : List JSString) →
    p ∈ walkDirectory join dirPath listing files →
    p ∈ files ∨ ∃ entries, listing = some entries ∧ ∃ chain name, FileAt entries chain name ∧
      (∀ d ∈ chain, d ∉ SKIP_DIRS) ∧ p = (chain ++ [name]).foldl join dirPath
  | none, _, _, h => by
    simp only [walkDirectory] at h
    exact Or.inl h
  | some entries, dirPath, files, h => by
    simp only [walkDirectory] at h
    rcases walkEntries_mem join p entries dirPath files h with h | h
    · exact Or.inl h
    · exact Or.inr ⟨entries, rfl, h⟩
termination_by structural x => x
theorem walkEntries_mem (join : JSString → JSString → JSString) (p : JSString) :
    (entries : List Dirent) → (dirPath : JSString) → (files : List JSString) →
    p ∈ walkEntries join dirPath entries files →
    p ∈ files ∨ ∃ chain name, FileAt entries chain name ∧
      (∀ d ∈ chain, d ∉ SKIP_DIRS) ∧ p = (chain ++ [name]).foldl join dirPath
  | [], _, _, h => by
    simp only [walkEntries] at h
    exact Or.inl h
  | entry :: rest, dirPath, files, h => by
    simp only [walkEntries] at h
    rcases walkEntries_mem join p rest dirPath _ h with h | ⟨chain, name, hf, hc, hp⟩
    · rcases walkEntry_mem join p entry dirPath files h with h | ⟨chain, name, hf, hc, hp⟩
      · exact Or.inl h
      · exact Or.inr ⟨chain, name, hf.mono (by simp), hc, hp⟩
    · exact Or.inr ⟨chain, name, hf.mono (fun e he => List.mem_cons_of_mem _ he), hc, hp⟩
termination_by structural x => x
theorem walkEntry_mem (join : JSString → JSString → JSString) (p : JSString) :
    (entry : Dirent) → (dirPath : JSString) → (files : List JSString) →
    p ∈ walkEntry join dirPath entry files →
    p ∈ files ∨ ∃ chain name, FileAt [entry] chain name ∧
      (∀ d ∈ chain, d ∉ SKIP_DIRS) ∧ p = (chain ++ [name]).foldl join dirPath
  | .dir name listing, dirPath, files, h => by
    by_cases hs : name ∈ SKIP_DIRS
    · simp [walkEntry, hs] at h
      exact Or.inl h
    · simp [walkEntry, hs] at h
      rcases walkDirectory_mem join p listing (join dirPath name) files h with
        h | ⟨entries, he, chain, nm, hf, hc, hp⟩
      · exact Or.inl h
      · subst he
        refine Or.inr ⟨name :: chain, nm, .nested (List.mem_singleton.mpr rfl) hf, ?_, ?_⟩
        · intro d hd
          rcases List.mem_cons.mp hd with hd | hd
          · exact hd ▸ hs
          · exact hc d hd
        · simpa using hp
  | .file name size, dirPath, files, h => by
    simp only [walkEntry] at h
    split at h
    · split at h
      · split at h
        · rcases List.mem_append.mp h with h | h
          · exact Or.inl h
          · refine Or.inr ⟨[], name, .direct (List.mem_singleton.mpr rfl), by simp, ?_⟩
            simpa using h
        · exact Or.inl h
      · exact Or.inl h
    · exact Or.inl h
  | .other _, _, _, h => by
    simp only [walkEntry] at h
    exact Or.inl h
termination_by structural x => x
end
/-- C8: every path that `walkDirectory` returns for a root is the path of a regular file
reached from the root through readable directories none of which has a name in `SKIP_DIRS`,
and the result is the same when everything beneath the directories named in `SKIP_DIRS` is
removed from the tree: nothing beneath an excluded directory is ever returned. -/
theorem walkDirectory_excludes_skip_dirs (join : JSString → JSString → JSString)
    (root : JSString) (listing : Option (List Dirent)) (p : JSString)
    (hp : p ∈ walkDirectory join root listing []) :
    (∃ entries chain name, listing = some entries ∧ FileAt entries chain name ∧
      (∀ d ∈ chain, d ∉ SKIP_DIRS) ∧ p = (chain ++ [name]).foldl join root) ∧
    walkDirectory join root (pruneListing listing) [] = walkDirectory join root listing [] := by
  refine ⟨?_, walkDirectory_prune join root listing []⟩
  rcases walkDirectory_mem join p listing root [] hp with h | ⟨entries, he, chain, name, h⟩
  · simp at h
  · exact ⟨entries, chain, name, he, h⟩

theorem walkDirectory_excludes_skip_dirs_witness :
    walkDirectory joinPlain (str "/repo") (some sampleTree) [] =
      [str "/repo/src/main.js", str "/repo/index.js"] ∧
    str "/repo/node_modules/leftpad/secret.js" ∉
      walkDirectory joinPlain (str "/repo") (some sampleTree) [] ∧
    FileAt sampleTree [str "node_modules", str "leftpad"] (str "secret.js") ∧
    ((∃ entries chain name, some sampleTree = some entries ∧ FileAt entries chain name ∧
        (∀ d ∈ chain, d ∉ SKIP_DIRS) ∧
        str "/repo/src/main.js" = (chain ++ [name]).foldl joinPlain (str "/repo")) ∧
      walkDirectory joinPlain (str "/repo") (pruneListing (some sampleTree)) [] =
        walkDirectory joinPlain (str "/repo") (some sampleTree) []) :=
  ⟨by decide, by decide,
    .nested (List.mem_cons_self _ _)
      (.nested (List.mem_cons_self _ _) (.direct (List.mem_cons_self _ _))),
    walkDirectory_excludes_skip_dirs joinPlain (str "/repo") (some sampleTree)
      (str "/repo/src/main.js") (by decide)⟩

/-! ## False-positive filter -/

theorem scanRules_of_no_false_positive (relative : JSString → JSString → JSString)
    (filePath baseDir : JSString) (i : Nat) (line : JSString) (rules : List Rule)
    (findings : List Finding)
    (h : ∀ r ∈ rules, ∀ t, isFalsePositive r.id t line filePath = false) :
    (scanRules relative filePath baseDir i line rules findings).map Finding.ruleId =
      findings.map Finding.ruleId ++
        (rules.filter (fun r => (r.exec line).isSome)).map Rule.id := by
  induction rules generalizing findings with
  | nil => simp [scanRules]
  | cons r rest ih =>
    have ih' := fun fs => ih fs (fun r' hr' => h r' (List.mem_cons_of_mem _ hr'))
    unfold scanRules
    cases hex : r.exec line with
    | none => simp [hex, ih', List.filter_cons]
    | some t =>
      simp [hex, ih', List.filter_cons, h r (List.mem_cons_self _ _) t]

theorem scanFile_single_line (relative : JSString → JSString → JSString) (rules : List Rule)
    (filePath baseDir text line : JSString) (hsplit : splitLines text = [line])
    (hblank : ((trim line).length == 0) = false) (hcom : isComment line = false) :
    scanFile relative rules filePath baseDir (some text) =
      scanRules relative filePath baseDir 0 line rules [] := by
  unfold scanFile
  simp only [hsplit, scanLines, hblank, hcom, Bool.false_eq_true, if_false]

/-- C3 fails as stated: for the line `AWS_KEY=AKIAEXAMPLE1234567890` of `README.md` the filter
returns false for the rule `aws-access-key`, and scanning the file with a rule that matches
the key yields a finding. -/
theorem readme_example_counterexample :
    isFalsePositive (str "aws-access-key") (str "AKIAEXAMPLE123456789") awsLine
        (str "README.md") = false ∧
      (Regex.wordI "example").test awsLine = false ∧
      (scanFile relativeTo [awsRule] (str "/repo/README.md") (str "/repo")
        (some awsLine)).length = 1 := by
  decide

/-- C3, amended: for the line `AWS_KEY=AKIAEXAMPLE1234567890` of a file named `README.md`, no
pattern of the generic list matches the line (`EXAMPLE` stands between the word characters
`A` and `1`, so `\bexample\b` does not match), the filter returns false for every rule id
other than `private-ip` and every matched text, and scanning the file yields one finding
for each rule whose pattern matches the line, when no rule has the id `private-ip`. -/
theorem readme_example_not_filtered (ruleId matchedText : JSString)
    (hid : ruleId ≠ str "private-ip") :
    FALSE_POSITIVE_PATTERNS.any (fun pattern => pattern.test awsLine) = false ∧
      isFalsePositive ruleId matchedText awsLine (str "README.md") = false ∧
      ∀ (relative : JSString → JSString → JSString) (rules : List Rule) (baseDir : JSString),
        (∀ r ∈ rules, r.id ≠ str "private-ip") →
        (scanFile relative rules (str "README.md") baseDir (some awsLine)).map Finding.ruleId =
          (rules.filter (fun r => (r.exec awsLine).isSome)).map Rule.id := by
  have hgen : FALSE_POSITIVE_PATTERNS.any (fun pattern => pattern.test awsLine) = false := by
    decide
  have hbase : toLowerCase (basename (str "README.md")) = str "readme.md" := by decide
  have hb1 : (str "readme.md" == str "package.json") = false := by decide
  have hb2 : (str "readme.md" == str "package-lock.json") = false := by decide
  have hfp : ∀ (id t : JSString), id ≠ str "private-ip" →
      isFalsePositive id t awsLine (str "README.md") = false := by
    intro id t h
    have h' : (id == str "private-ip") = false := by simpa using h
    unfold isFalsePositive
    simp only [h', hbase, hb1, hb2, hgen, Bool.false_and, Bool.and_false, Bool.or_self,
      Bool.false_eq_true, if_false]
  refine ⟨hgen, hfp ruleId matchedText hid, ?_⟩
  intro relative rules baseDir hrules
  have hsplit : splitLines awsLine = [awsLine] := by decide
  have hblank : ((trim awsLine).length == 0) = false := by decide
  have hcom : isComment awsLine = false := by decide
  rw [scanFile_single_line _ _ _ _ _ _ hsplit hblank hcom]
  rw [scanRules_of_no_false_positive _ _ _ _ _ _ _ (fun r hr t => hfp r.id t (hrules r hr))]
  simp

theorem readme_example_not_filtered_witness :
    str "aws-access-key" ≠ str "private-ip" ∧
    (∀ r ∈ [awsRule], r.id ≠ str "private-ip") ∧
    FALSE_POSITIVE_PATTERNS.any (fun pattern => pattern.test awsLine) = false ∧
    isFalsePositive (str "aws-access-key") (str "AKIAEXAMPLE123456789") awsLine
      (str "README.md") = false ∧
    (scanFile relativeTo [awsRule] (str "README.md") [] (some awsLine)).map Finding.ruleId =
      ([awsRule].filter (fun r => (r.exec awsLine).isSome)).map Rule.id ∧
    ([awsRule].filter (fun r => (r.exec awsLine).isSome)).map Rule.id =
      [str "aws-access-key"] :=
  ⟨by decide, by decide,
    (readme_example_not_filtered (str "aws-access-key") (str "AKIAEXAMPLE123456789")
      (by decide)).1,
    (readme_example_not_filtered (str "aws-access-key") (str "AKIAEXAMPLE123456789")
      (by decide)).2.1,
    (readme_example_not_filtered (str "aws-access-key") (str "AKIAEXAMPLE123456789")
      (by decide)).2.2 relativeTo [awsRule] [] (by decide),
    by decide⟩

/-! ## Matches of the backtracking matcher -/

theorem self_mem_starLoop (step : Pos → List Pos) (fuel : Nat) (s : Pos) :
    s ∈ starLoop step fuel s := by
  cases fuel <;> simp [starLoop]

theorem Reach.empty (s : JSString) : Reach .empty s s :=
  fun prev => ⟨prev, by simp [Regex.run]⟩

theorem Reach.unit {p : Nat → Bool} {c : Nat} (t : JSString) (h : p c = true) :
    Reach (.unit p) (c :: t) t :=
  fun _ => ⟨some c, by simp [Regex.run, h]⟩

theorem Reach.char (c : Char) (t : JSString) : Reach (.char c) (c.toNat :: t) t :=
  Reach.unit t (by simp)

theorem Reach.seq {a b : Regex} {s m t : JSString} (ha : Reach a s m) (hb : Reach b m t) :
    Reach (.seq a b) s t := by
  intro prev
  obtain ⟨q, hq⟩ := ha prev
  obtain ⟨q', hq'⟩ := hb q
  exact ⟨q', by simp only [Regex.run, List.mem_flatMap]; exact ⟨_, hq, hq'⟩⟩

theorem Reach.alt_left {a b : Regex} {s t : JSString} (ha : Reach a s t) :
    Reach (.alt a b) s t := by
  intro prev
  obtain ⟨q, hq⟩ := ha prev
  exact ⟨q, by simp only [Regex.run, List.mem_append]; exact Or.inl hq⟩

theorem Reach.alt_right {a b : Regex} {s t : JSString} (hb : Reach b s t) :
    Reach (.alt a b) s t := by
  intro prev
  obtain ⟨q, hq⟩ := hb prev
  exact ⟨q, by simp only [Regex.run, List.mem_append]; exact Or.inr hq⟩

theorem Reach.star_units {p : Nat → Bool} (ws t : JSString) (h : ∀ u ∈ ws, p u = true) :
    Reach (.star (.unit p)) (ws ++ t) t := by
  induction ws with
  | nil =>
    intro prev
    exact ⟨prev, by simp only [Regex.run, List.nil_append]; exact self_mem_starLoop _ _ _⟩
  | cons u ws ih =>
    intro prev
    obtain ⟨q, hq⟩ := ih (fun x hx => h x (List.mem_cons_of_mem _ hx)) (some u)
    refine ⟨q, ?_⟩
    simp only [Regex.run] at hq ⊢
    have hl : (u :: ws ++ t).length = (ws ++ t).length + 1 := by simp
    simp only [List.cons_append, hl, starLoop, h u (List.mem_cons_self _ _), if_true]
    simp only [List.mem_append, List.mem_flatMap, List.mem_filter]
    exact Or.inl ⟨⟨some u, ws ++ t⟩, ⟨by simp, by simp⟩, hq⟩

theorem Reach.plus_units {p : Nat → Bool} (ws t : JSString) (hne : ws ≠ [])
    (h : ∀ u ∈ ws, p u = true) : Reach (Regex.plus (.unit p)) (ws ++ t) t := by
  cases ws with
  | nil => exact absurd rfl hne
  | cons u ws =>
    exact Reach.seq (Reach.unit _ (h u (List.mem_cons_self _ _)))
      (Reach.star_units ws t (fun x hx => h x (List.mem_cons_of_mem _ hx)))

theorem test_of_run_ne_nil (r : Regex) (s : JSString) (t : Pos) (h : t ∈ r.run ⟨none, s⟩) :
    r.test s = true := by
  have hne : (r.run ⟨none, s⟩).isEmpty = false := by
    cases hr : r.run ⟨none, s⟩ with
    | nil => rw [hr] at h; simp at h
    | cons _ _ => rfl
  cases s with
  | nil => simp [Regex.test, Regex.testFrom, hne]
  | cons u s => simp [Regex.test, Regex.testFrom, hne]

theorem test_of_bol_reach (r : Regex) (s t : JSString) (h : Reach r s t) :
    (Regex.seq .bol r).test s = true := by
  obtain ⟨q, hq⟩ := h none
  exact test_of_run_ne_nil _ s ⟨q, t⟩ (by simp [Regex.run, hq])
theorem scanRules_of_all_false_positive (relative : JSString → JSString → JSString)
    (filePath baseDir : JSString) (i : Nat) (line : JSString) (rules : List Rule)
    (findings : List Finding)
    (h : ∀ r ∈ rules, ∀ t, isFalsePositive r.id t line filePath = true) :
    scanRules relative filePath baseDir i line rules findings = findings := by
  induction rules generalizing findings with
  | nil => simp [scanRules]
  | cons r rest ih =>
    have ih' := fun fs => ih fs (fun r' hr' => h r' (List.mem_cons_of_mem _ hr'))
    unfold scanRules
    cases hex : r.exec line with
    | none => simp [ih']
    | some t => simp [ih', h r (List.mem_cons_self _ _) t]

theorem dependencyLine_test (ws1 key ws2 ws3 range tail : JSString) (digit : Nat)
    (hws1 : ∀ u ∈ ws1, isWhiteSpace u = true) (hkey : key ≠ []) (hquote : ∀ u ∈ key, u ≠ 34)
    (hws2 : ∀ u ∈ ws2, isWhiteSpace u = true) (hws3 : ∀ u ∈ ws3, isWhiteSpace u = true)
    (hlen : range.length ≤ 1) (hrange : ∀ u ∈ range, u ∈ str "^~>=<*")
    (hdigit : isDigit digit = true) :
    dependencyLine.test (ws1 ++ str "\"" ++ key ++ str "\"" ++ ws2 ++ str ":" ++ ws3 ++
      str "\"" ++ range ++ [digit] ++ tail) = true := by
  have hq : str "\"" = ['"'.toNat] := by decide
  have hc : str ":" = [':'.toNat] := by decide
  have hr : str "^~>=<*" = [94, 126, 62, 61, 60, 42] := by decide
  rw [hq, hc]
  simp only [List.append_assoc, List.singleton_append]
  apply test_of_bol_reach _ _ tail
  refine (Reach.star_units ws1 _ hws1).seq ((Reach.char '"' _).seq
    ((Reach.plus_units key _ hkey (by simpa using hquote)).seq ((Reach.char '"' _).seq
      ((Reach.star_units ws2 _ hws2).seq ((Reach.char ':' _).seq
        ((Reach.star_units ws3 _ hws3).seq ((Reach.char '"' _).seq ?_)))))))
  match range, hlen, hrange with
  | [], _, _ => exact (Reach.alt_right (Reach.empty _)).seq (Reach.unit _ hdigit)
  | [c], _, hrange =>
    have hcm : c ∈ str "^~>=<*" := hrange c (List.mem_singleton.mpr rfl)
    rw [hr] at hcm
    refine (Reach.alt_left (Reach.unit _ ?_)).seq (Reach.unit _ hdigit)
    simp only [List.mem_cons, List.mem_singleton, List.not_mem_nil, or_false] at hcm
    rcases hcm with h | h | h | h | h | h <;> subst h <;> decide
  | _ :: _ :: _, hlen, _ => simp at hlen

/-- C4: in a file whose basename, lower-cased, is `package.json`, the filter rejects, for
every rule id and matched text, every line made of optional white space, a quoted non-empty
key without a quote in it, a colon with optional white space around it, and a quoted value
that starts with at most one of the range characters `^ ~ > = < *` and then a digit; so
the line `"dotenv": "^10.0.0"` of `package.json` yields no finding under any rule set. -/
theorem dependency_lines_rejected (ruleId matchedText filePath : JSString)
    (ws1 key ws2 ws3 range tail : JSString) (digit : Nat)
    (hbase : toLowerCase (basename filePath) = str "package.json")
    (hws1 : ∀ u ∈ ws1, isWhiteSpace u = true) (hkey : key ≠ []) (hquote : ∀ u ∈ key, u ≠ 34)
    (hws2 : ∀ u ∈ ws2, isWhiteSpace u = true) (hws3 : ∀ u ∈ ws3, isWhiteSpace u = true)
    (hlen : range.length ≤ 1) (hrange : ∀ u ∈ range, u ∈ str "^~>=<*")
    (hdigit : isDigit digit = true) :
    isFalsePositive ruleId matchedText (ws1 ++ str "\"" ++ key ++ str "\"" ++ ws2 ++ str ":" ++
        ws3 ++ str "\"" ++ range ++ [digit] ++ tail) filePath = true ∧
      ∀ (relative : JSString → JSString → JSString) (rules : List Rule) (baseDir : JSString),
        scanFile relative rules (str "package.json") baseDir
          (some (str "\"dotenv\": \"^10.0.0\"")) = [] := by
  have key_fact : ∀ (id t fp line : JSString), toLowerCase (basename fp) = str "package.json" →
      dependencyLine.test line = true → isFalsePositive id t line fp = true := by
    intro id t fp line hb ht
    unfold isFalsePositive
    simp only [hb, ht, beq_self_eq_true, Bool.and_self, if_true]
    split
    · rfl
    · split
      · rfl
      · split <;> rfl
  refine ⟨key_fact _ _ _ _ hbase
    (dependencyLine_test ws1 key ws2 ws3 range tail digit hws1 hkey hquote hws2 hws3 hlen hrange
      hdigit), ?_⟩
  intro relative rules baseDir
  rw [scanFile_single_line relative rules _ baseDir _ (str "\"dotenv\": \"^10.0.0\"")
    (by decide) (by decide) (by decide)]
  exact scanRules_of_all_false_positive _ _ _ _ _ _ _
    (fun r _ t => key_fact _ _ _ _ (by decide) (by decide))

theorem dependency_lines_rejected_witness :
    [] ++ str "\"" ++ str "dotenv" ++ str "\"" ++ [] ++ str ":" ++ str " " ++ str "\"" ++
        str "^" ++ ['1'.toNat] ++ str "0.0.0\"" = str "\"dotenv\": \"^10.0.0\"" ∧
    (isFalsePositive (str "env-file-ref") (str "dotenv") ([] ++ str "\"" ++ str "dotenv" ++
        str "\"" ++ [] ++ str ":" ++ str " " ++ str "\"" ++ str "^" ++ ['1'.toNat] ++
        str "0.0.0\"") (str "/repo/Package.json") = true ∧
      ∀ (relative : JSString → JSString → JSString) (rules : List Rule) (baseDir : JSString),
        scanFile relative rules (str "package.json") baseDir
          (some (str "\"dotenv\": \"^10.0.0\"")) = []) :=
  ⟨by decide, dependency_lines_rejected (str "env-file-ref") (str "dotenv")
    (str "/repo/Package.json") [] (str "dotenv") [] (str " ") (str "^") (str "0.0.0\"")
    '1'.toNat (by decide) (by decide) (by decide) (by decide) (by decide) (by decide)
    (by decide) (by decide) (by decide)⟩

theorem head?_flatMap_of_head? {α β : Type} (f : α → List β) (l : List α) (x : α) (y : β)
    (hl : l.head? = some x) (hf : (f x).head? = some y) : (l.flatMap f).head? = some y := by
  cases l with
  | nil => simp at hl
  | cons a l =>
    simp only [List.head?_cons, Option.some.injEq] at hl
    subst hl
    cases hfa : f a with
    | nil => simp [hfa] at hf
    | cons b r =>
      simp only [hfa, List.head?_cons, Option.some.injEq] at hf
      simp [List.flatMap_cons, hfa, hf]

theorem First.of_unit {p : Nat → Bool} {c : Nat} (t : JSString) (h : p c = true) :
    First (.unit p) (c :: t) t :=
  fun _ => ⟨some c, by simp [Regex.run, h]⟩

theorem First.of_char (c : Char) (t : JSString) : First (.char c) (c.toNat :: t) t :=
  First.of_unit t (by simp)

theorem First.of_seq {a b : Regex} {s m t : JSString} (ha : First a s m) (hb : First b m t) :
    First (.seq a b) s t := by
  intro prev
  obtain ⟨q, hq⟩ := ha prev
  obtain ⟨q', hq'⟩ := hb q
  exact ⟨q', by simp only [Regex.run]; exact head?_flatMap_of_head? _ _ _ _ hq hq'⟩

theorem run_star (a : Regex) (s : Pos) :
    (Regex.star a).run s = starLoop a.run s.rest.length s := by
  rw [Regex.run]

theorem starLoop_succ (step : Pos → List Pos) (fuel : Nat) (s : Pos) :
    starLoop step (fuel + 1) s =
      ((step s).filter (fun t => t.rest.length < s.rest.length)).flatMap (starLoop step fuel) ++
        [s] := rfl

theorem consumed_append (p q : Option Nat) (x t : JSString) :
    consumed ⟨p, x ++ t⟩ ⟨q, t⟩ = x := by
  simp [consumed]

theorem run_unit_cons (p : Nat → Bool) (prev : Option Nat) (u : Nat) (t : JSString) :
    (Regex.unit p).run ⟨prev, u :: t⟩ = if p u = true then [⟨some u, t⟩] else [] := by
  rw [Regex.run]

theorem head?_append_of_head? {α : Type} (l r : List α) (x : α) (h : l.head? = some x) :
    (l ++ r).head? = some x := by
  cases l with
  | nil => simp at h
  | cons a l => simpa using h

/-- A greedy `*` over a class takes the whole run of code units of the class first. -/
theorem First.of_star_units {p : Nat → Bool} (ds t : JSString) (h : ∀ u ∈ ds, p u = true)
    (hstop : ∀ c ∈ t.head?, p c = false) : First (.star (.unit p)) (ds ++ t) t := by
  induction ds with
  | nil =>
    intro prev
    refine ⟨prev, ?_⟩
    cases t with
    | nil => simp [Regex.run, starLoop]
    | cons c t =>
      have hc : p c = false := hstop c (by simp)
      simp [Regex.run, starLoop, hc]
  | cons u ds ih =>
    intro prev
    obtain ⟨q, hq⟩ := ih (fun x hx => h x (List.mem_cons_of_mem _ hx)) (some u)
    refine ⟨q, ?_⟩
    rw [run_star] at hq ⊢
    have hl : (u :: (ds ++ t)).length = (ds ++ t).length + 1 := by simp
    simp only [List.cons_append] at hq ⊢
    rw [hl, starLoop_succ, run_unit_cons, if_pos (h u (List.mem_cons_self _ _))]
    have hf : List.filter (fun x : Pos => decide (x.rest.length < (u :: (ds ++ t)).length))
        [⟨some u, ds ++ t⟩] = [⟨some u, ds ++ t⟩] := by
      simp [List.filter_cons]
    simp only [hf, List.flatMap_cons, List.flatMap_nil, List.append_nil]
    exact head?_append_of_head? _ _ _ hq

theorem First.of_plus_units {p : Nat → Bool} (ds t : JSString) (hne : ds ≠ [])
    (h : ∀ u ∈ ds, p u = true) (hstop : ∀ c ∈ t.head?, p c = false) :
    First (Regex.plus (.unit p)) (ds ++ t) t := by
  cases ds with
  | nil => exact absurd rfl hne
  | cons u ds =>
    exact First.of_seq (First.of_unit _ (h u (List.mem_cons_self _ _)))
      (First.of_star_units ds t (fun x hx => h x (List.mem_cons_of_mem _ hx)) hstop)

theorem firstPair_of_first (a b : Regex) (s m t : JSString) (prev : Option Nat)
    (ha : First a s m) (hb : First b m t) :
    ∃ q q', firstPair a b ⟨prev, s⟩ = some (⟨q, m⟩, ⟨q', t⟩) := by
  obtain ⟨q, hq⟩ := ha prev
  obtain ⟨q', hq'⟩ := hb q
  refine ⟨q, q', ?_⟩
  unfold firstPair
  exact head?_flatMap_of_head? _ _ _ _ hq (by simp [hq'])

/-- On a text of four groups of digits separated by dots, `ipMatch[2]` is the last group. -/
theorem matchGroups_ip (d1 d2 d3 d4 : JSString)
    (h1 : d1 ≠ []) (h2 : d2 ≠ []) (h3 : d3 ≠ []) (h4 : d4 ≠ [])
    (g1 : ∀ u ∈ d1, isDigit u = true) (g2 : ∀ u ∈ d2, isDigit u = true)
    (g3 : ∀ u ∈ d3, isDigit u = true) (g4 : ∀ u ∈ d4, isDigit u = true) :
    matchGroups ipGroup1 ipGroup2 (d1 ++ str "." ++ d2 ++ str "." ++ d3 ++ str "." ++ d4) =
      some (d1 ++ str "." ++ d2 ++ str "." ++ d3 ++ str ".", d4) := by
  have hdot : str "." = ['.'.toNat] := by decide
  have hnd : ∀ (t : JSString), ∀ c ∈ ('.'.toNat :: t).head?, isDigit c = false := by
    intro t c hc
    simp only [List.head?_cons, Option.mem_def, Option.some.injEq] at hc
    subst hc
    decide
  have hA : First ipGroup1
      (d1 ++ ('.'.toNat :: (d2 ++ ('.'.toNat :: (d3 ++ ('.'.toNat :: d4)))))) d4 :=
    (First.of_plus_units d1 _ h1 g1 (hnd _)).of_seq ((First.of_char '.' _).of_seq
      ((First.of_plus_units d2 _ h2 g2 (hnd _)).of_seq ((First.of_char '.' _).of_seq
        ((First.of_plus_units d3 _ h3 g3 (hnd _)).of_seq (First.of_char '.' _)))))
  have hB : First ipGroup2 d4 [] := by
    have := First.of_plus_units d4 [] h4 g4 (by simp)
    simpa using this
  rw [hdot]
  have hA' : First ipGroup1 ((d1 ++ ['.'.toNat] ++ d2 ++ ['.'.toNat] ++ d3 ++ ['.'.toNat]) ++ d4)
      d4 := by
    simpa using hA
  obtain ⟨q, q', hp⟩ := firstPair_of_first ipGroup1 ipGroup2 _ d4 [] none hA' hB
  generalize d1 ++ ['.'.toNat] ++ d2 ++ ['.'.toNat] ++ d3 ++ ['.'.toNat] = x at hp ⊢
  have hc1 := consumed_append none q x d4
  have hc2 : consumed ⟨q, d4⟩ ⟨q', []⟩ = d4 := by simp [consumed]
  unfold matchGroups
  cases hx : x ++ d4 with
  | nil =>
    rw [hx] at hp hc1
    simp only [matchGroupsFrom, hp, hc1, hc2]
  | cons u r =>
    rw [hx] at hp hc1
    simp only [matchGroupsFrom, hp, hc1, hc2]
/-- C2: for the rule `private-ip` and a matched text made of four non-empty groups of digits
separated by dots, the filter returns true for every line and file path when the last group
has more than 3 digits; when it has at most 3, the line matches neither the version and
package vocabulary nor a pattern of the generic list, and the lower-cased basename of the
file, which is what the source compares, is not `package.json`, the filter returns
false. -/
theorem private_ip_rule (d1 d2 d3 d4 : JSString)
    (h1 : d1 ≠ []) (h2 : d2 ≠ []) (h3 : d3 ≠ []) (h4 : d4 ≠ [])
    (g1 : ∀ u ∈ d1, isDigit u = true) (g2 : ∀ u ∈ d2, isDigit u = true)
    (g3 : ∀ u ∈ d3, isDigit u = true) (g4 : ∀ u ∈ d4, isDigit u = true) :
    (3 < d4.length → ∀ line filePath : JSString,
      isFalsePositive (str "private-ip")
        (d1 ++ str "." ++ d2 ++ str "." ++ d3 ++ str "." ++ d4) line filePath = true) ∧
    (d4.length ≤ 3 → ∀ line filePath : JSString,
      versionVocabulary.test line = false →
      FALSE_POSITIVE_PATTERNS.any (fun pattern => pattern.test line) = false →
      toLowerCase (basename filePath) ≠ str "package.json" →
      isFalsePositive (str "private-ip")
        (d1 ++ str "." ++ d2 ++ str "." ++ d3 ++ str "." ++ d4) line filePath = false) := by
  have hm := matchGroups_ip d1 d2 d3 d4 h1 h2 h3 h4 g1 g2 g3 g4
  simp only [List.append_assoc] at hm
  constructor
  · intro hlen line filePath
    unfold isFalsePositive
    simp [hm, hlen]
  · intro hlen line filePath hv hg hb
    have hlen' : ¬ 3 < d4.length := by omega
    have hid : (str "private-ip" == str "env-file-ref") = false := by decide
    have hb' : (toLowerCase (basename filePath) == str "package.json") = false := by
      simpa using hb
    unfold isFalsePositive
    simp [hm, hlen', hv, hg, hid, hb']

theorem private_ip_rule_witness :
    str "10" ++ str "." ++ str "3" ++ str "." ++ str "0" ++ str "." ++ str "120579" =
        str "10.3.0.120579" ∧
    str "10" ++ str "." ++ str "3" ++ str "." ++ str "0" ++ str "." ++ str "12" =
        str "10.3.0.12" ∧
    isFalsePositive (str "private-ip")
        (str "10" ++ str "." ++ str "3" ++ str "." ++ str "0" ++ str "." ++ str "120579")
        (str "host = 10.3.0.120579") (str "/repo/config.yml") = true ∧
    isFalsePositive (str "private-ip")
        (str "10" ++ str "." ++ str "3" ++ str "." ++ str "0" ++ str "." ++ str "12")
        (str "host = 10.3.0.12") (str "/repo/config.yml") = false :=
  ⟨by decide, by decide,
    (private_ip_rule (str "10") (str "3") (str "0") (str "120579") (by decide) (by decide)
      (by decide) (by decide) (by decide) (by decide) (by decide) (by decide)).1 (by decide)
      (str "host = 10.3.0.120579") (str "/repo/config.yml"),
    (private_ip_rule (str "10") (str "3") (str "0") (str "12") (by decide) (by decide)
      (by decide) (by decide) (by decide) (by decide) (by decide) (by decide)).2 (by decide)
      (str "host = 10.3.0.12") (str "/repo/config.yml") (by decide) (by decide) (by decide)⟩

/-! ## Counting the findings of `scanFile` -/

theorem scanRules_eq_filterMap (relative : JSString → JSString → JSString)
    (filePath baseDir : JSString) (i : Nat) (line : JSString) (rules : List Rule)
    (findings : List Finding) :
    scanRules relative filePath baseDir i line rules findings =
      findings ++ rules.filterMap (ruleFinding relative filePath baseDir i line) := by
  induction rules generalizing findings with
  | nil => simp [scanRules]
  | cons rule rest ih =>
    unfold scanRules
    cases hex : rule.exec line with
    | none => simp [ih, List.filterMap_cons, ruleFinding, hex]
    | some t =>
      by_cases hfp : isFalsePositive rule.id t line filePath = true
      · simp [ih, List.filterMap_cons, ruleFinding, hex, hfp]
      · simp [ih, List.filterMap_cons, ruleFinding, hex, hfp]

theorem ruleFinding_fields (relative : JSString → JSString → JSString)
    (filePath baseDir : JSString) (i : Nat) (line : JSString) (rule : Rule) (f : Finding)
    (h : ruleFinding relative filePath baseDir i line rule = some f) :
    f.line = i + 1 ∧ f.ruleId = rule.id := by
  unfold ruleFinding at h
  split at h
  · split at h
    · cases h
    · cases h
      exact ⟨rfl, rfl⟩
  · cases h

theorem scanLines_length (relative : JSString → JSString → JSString) (rules : List Rule)
    (filePath baseDir : JSString) (i : Nat) (lines : List JSString) (findings : List Finding) :
    (scanLines relative rules filePath baseDir i lines findings).length ≤
      findings.length +
        (lines.filter (fun line => (trim line).length != 0 && !isComment line)).length *
          rules.length := by
  induction lines generalizing i findings with
  | nil => simp [scanLines]
  | cons line rest ih =>
    unfold scanLines
    by_cases hb : (trim line).length = 0
    · have := ih (i + 1) findings
      simpa [List.filter_cons, hb] using this
    · by_cases hc : isComment line = true
      · have := ih (i + 1) findings
        simpa [List.filter_cons, hb, hc] using this
      · have h1 := ih (i + 1) (scanRules relative filePath baseDir i line rules findings)
        have h2 : (scanRules relative filePath baseDir i line rules findings).length ≤
            findings.length + rules.length := by
          rw [scanRules_eq_filterMap, List.length_append]
          exact Nat.add_le_add_left (List.length_filterMap_le _ _) _
        have e : ((line :: rest).filter
            (fun line => (trim line).length != 0 && !isComment line)).length =
            (rest.filter (fun line => (trim line).length != 0 && !isComment line)).length + 1 := by
          simp [List.filter_cons, hb, hc]
        rw [e, Nat.succ_mul]
        simp only [beq_iff_eq, hb, if_false, hc, Bool.false_eq_true]
        omega

theorem one_or_zero_mono (A B : Prop) [Decidable A] [Decidable B] (h : A → B) :
    (if A then 1 else 0) ≤ (if B then 1 else 0 : Nat) := by
  by_cases ha : A
  · simp [ha, h ha]
  · simp [ha]

theorem countP_filterMap_ruleFinding (relative : JSString → JSString → JSString)
    (filePath baseDir : JSString) (i : Nat) (line : JSString) (rules : List Rule)
    (n : Nat) (id : JSString) (hids : (rules.map Rule.id).Nodup) :
    ((rules.filterMap (ruleFinding relative filePath baseDir i line)).countP
        (fun f => f.line == n && f.ruleId == id) ≤
      if n = i + 1 ∧ id ∈ rules.map Rule.id then 1 else 0) := by
  induction rules with
  | nil => simp
  | cons rule rest ih =>
    simp only [List.map_cons, List.nodup_cons] at hids
    have ih' := ih hids.2
    have mono : (if n = i + 1 ∧ id ∈ rest.map Rule.id then 1 else 0) ≤
        (if n = i + 1 ∧ id ∈ rule.id :: rest.map Rule.id then 1 else 0 : Nat) :=
      one_or_zero_mono _ _ (fun h => ⟨h.1, List.mem_cons_of_mem _ h.2⟩)
    rw [List.filterMap_cons, List.map_cons]
    cases hr : ruleFinding relative filePath baseDir i line rule with
    | none => exact le_trans ih' mono
    | some f =>
      obtain ⟨hl, hi⟩ := ruleFinding_fields _ _ _ _ _ _ _ hr
      simp only [List.countP_cons, hl, hi]
      by_cases hid : rule.id = id
      · subst hid
        have hnot : ¬ (n = i + 1 ∧ rule.id ∈ rest.map Rule.id) := fun h => hids.1 h.2
        simp only [hnot, if_false, Nat.le_zero] at ih'
        rw [ih']
        by_cases hn : n = i + 1
        · simp [hn]
        · have : ¬ i + 1 = n := fun e => hn e.symm
          simp [hn, this]
      · have : (i + 1 == n && rule.id == id) = false := by simp [hid]
        simp only [this, Bool.false_eq_true, if_false, Nat.add_zero]
        exact le_trans ih' mono
theorem scanLines_countP (relative : JSString → JSString → JSString) (rules : List Rule)
    (filePath baseDir : JSString) (n : Nat) (id : JSString)
    (hids : (rules.map Rule.id).Nodup) (i : Nat) (lines : List JSString)
    (findings : List Finding) :
    (scanLines relative rules filePath baseDir i lines findings).countP
        (fun f => f.line == n && f.ruleId == id) ≤
      findings.countP (fun f => f.line == n && f.ruleId == id) + if i < n then 1 else 0 := by
  induction lines generalizing i findings with
  | nil => simp [scanLines]
  | cons line rest ih =>
    have hmono : (if i + 1 < n then 1 else 0) ≤ (if i < n then 1 else 0 : Nat) :=
      one_or_zero_mono _ _ (fun h => by omega)
    unfold scanLines
    split
    · exact le_trans (ih (i + 1) findings) (Nat.add_le_add_left hmono _)
    · split
      · exact le_trans (ih (i + 1) findings) (Nat.add_le_add_left hmono _)
      · refine le_trans (ih (i + 1) _) ?_
        rw [scanRules_eq_filterMap, List.countP_append]
        have h1 := countP_filterMap_ruleFinding relative filePath baseDir i line rules n id hids
        have h2 : (if n = i + 1 ∧ id ∈ rules.map Rule.id then 1 else 0) +
            (if i + 1 < n then 1 else 0) ≤ (if i < n then 1 else 0 : Nat) := by
          by_cases ha : n = i + 1 ∧ id ∈ rules.map Rule.id
          · have hb : ¬ i + 1 < n := by omega
            have hc : i < n := by omega
            simp [ha, hb, hc]
          · simp only [ha, if_false, Nat.zero_add]
            exact hmono
        omega

/-- C11: with rule ids that are all different, `scanFile` returns at most one finding for
each pair of a line number and a rule id, however often the pattern of the rule occurs in
the line; and, for any rule set, the number of findings of a file is at most the number of
its lines that are neither blank nor comments times the number of rules. -/
theorem one_finding_per_rule_per_line (relative : JSString → JSString → JSString)
    (rules : List Rule) (filePath baseDir text : JSString)
    (hids : (rules.map Rule.id).Nodup) :
    (∀ (n : Nat) (id : JSString),
      ((scanFile relative rules filePath baseDir (some text)).filter
        (fun f => f.line == n && f.ruleId == id)).length ≤ 1) ∧
    (scanFile relative rules filePath baseDir (some text)).length ≤
      ((splitLines text).filter
        (fun line => (trim line).length != 0 && !isComment line)).length * rules.length ∧
    scanFile relative rules filePath baseDir none = [] := by
  refine ⟨?_, ?_, rfl⟩
  · intro n id
    rw [← List.countP_eq_length_filter]
    have h := scanLines_countP relative rules filePath baseDir n id hids 0 (splitLines text) []
    have h' : (if 0 < n then 1 else 0 : Nat) ≤ 1 := by split <;> omega
    simp only [List.countP_nil, Nat.zero_add] at h
    exact le_trans h h'
  · have h := scanLines_length relative rules filePath baseDir 0 (splitLines text) []
    simpa [scanFile] using h

theorem one_finding_per_rule_per_line_witness :
    ([passwordRule, awsRule].map Rule.id).Nodup ∧
    (scanFile relativeTo [passwordRule, awsRule] (str "/repo/config.py") (str "/repo")
      (some doubledText)).length = 1 ∧
    ((∀ (n : Nat) (id : JSString),
      ((scanFile relativeTo [passwordRule, awsRule] (str "/repo/config.py") (str "/repo")
        (some doubledText)).filter (fun f => f.line == n && f.ruleId == id)).length ≤ 1) ∧
    (scanFile relativeTo [passwordRule, awsRule] (str "/repo/config.py") (str "/repo")
        (some doubledText)).length ≤
      ((splitLines doubledText).filter
        (fun line => (trim line).length != 0 && !isComment line)).length *
        [passwordRule, awsRule].length ∧
    scanFile relativeTo [passwordRule, awsRule] (str "/repo/config.py") (str "/repo") none =
      []) :=
  ⟨by decide, by decide,
    one_finding_per_rule_per_line relativeTo [passwordRule, awsRule] (str "/repo/config.py")
      (str "/repo") doubledText (by decide)⟩

/-! ## End-to-end scenario of the password line -/

theorem masked_length (t : JSString) : (masked t).length ≤ 12 ∨ (masked t).length = 14 := by
  rw [masked_eq]
  by_cases h : 12 < t.length
  · right
    have h4 : (str "****").length = 4 := by decide
    simp only [h, if_true, List.length_append, List.length_take, List.length_drop, h4]
    omega
  · left
    simp only [h, if_false]
    omega

/-- C13 fails as stated: no matched text is masked to `hunter2****_123` (a masked text has
at most 12 or exactly 14 code units, this one has 15), and scanning `config.py` with a rule
that matches the secret yields one finding whose `matched` is `hunter****_123`. -/
theorem password_scenario_counterexample :
    (¬ ∃ t, masked t = str "hunter2****_123") ∧
      (scanFile relativeTo [passwordRule] (str "/repo/config.py") (str "/repo")
        (some passwordLine)).map Finding.matched = [str "hunter****_123"] ∧
      str "hunter****_123" ≠ str "hunter2****_123" := by
  refine ⟨?_, by decide, by decide⟩
  rintro ⟨t, ht⟩
  have hl : (str "hunter2****_123").length = 15 := by decide
  have := masked_length t
  rw [ht, hl] at this
  omega

/-- C13, amended: scanning a file `config.py` whose only line is
`password = "hunter2_real_value_123"` with a rule whose pattern matches the secret
`hunter2_real_value_123` on that line yields exactly one finding, on line 1, whose `matched`
is `hunter****_123`: the first 6 code units of the secret, the marker and the last 4. -/
theorem password_scenario (relative : JSString → JSString → JSString) (rule : Rule)
    (baseDir : JSString) (hexec : rule.exec passwordLine = some passwordSecret) :
    ∃ f, scanFile relative [rule] (str "config.py") baseDir (some passwordLine) = [f] ∧
      f.ruleId = rule.id ∧ f.severity = rule.severity ∧ f.line = 1 ∧
      f.matched = str "hunter****_123" ∧ f.lineContent = passwordLine := by
  have hsplit : splitLines passwordLine = [passwordLine] := by decide
  have hblank : ((trim passwordLine).length == 0) = false := by decide
  have hcom : isComment passwordLine = false := by decide
  have hfp : isFalsePositive rule.id passwordSecret passwordLine (str "config.py") = false := by
    have hm : matchGroups ipGroup1 ipGroup2 passwordSecret = none := by decide
    have hv : versionVocabulary.test passwordLine = false := by decide
    have hbase : toLowerCase (basename (str "config.py")) = str "config.py" := by decide
    have hb1 : (str "config.py" == str "package.json") = false := by decide
    have hb2 : (str "config.py" == str "package-lock.json") = false := by decide
    have hgen : FALSE_POSITIVE_PATTERNS.any (fun pattern => pattern.test passwordLine) = false := by
      decide
    unfold isFalsePositive
    simp only [hm, hv, hbase, hb1, hb2, hgen, Bool.and_false, Bool.false_and, Bool.or_self,
      Bool.false_eq_true, if_false]
  have hmask : masked passwordSecret = str "hunter****_123" := by decide
  have hcontent : substring (trim passwordLine) 0 200 = passwordLine := by decide
  rw [scanFile_single_line _ _ _ _ _ _ hsplit hblank hcom]
  have hs : scanRules relative (str "config.py") baseDir 0 passwordLine [rule] [] =
      [{ ruleId := rule.id, ruleName := rule.name, severity := rule.severity,
         description := rule.description,
         file := backslashesToSlashes (relative baseDir (str "config.py")),
         line := 0 + 1, matched := masked passwordSecret,
         lineContent := substring (trim passwordLine) 0 200 }] := by
    simp [scanRules, hexec, hfp]
  rw [hs]
  exact ⟨_, rfl, rfl, rfl, rfl, hmask, hcontent⟩

theorem password_scenario_witness :
    passwordRule.exec passwordLine = some passwordSecret ∧
    ∃ f, scanFile relativeTo [passwordRule] (str "config.py") [] (some passwordLine) = [f] ∧
      f.ruleId = passwordRule.id ∧ f.severity = passwordRule.severity ∧ f.line = 1 ∧
      f.matched = str "hunter****_123" ∧ f.lineContent = passwordLine :=
  ⟨by decide, password_scenario relativeTo passwordRule [] (by decide)⟩

/-! ## Order of the groups -/

theorem groupStep_keys {α : Type} (file : α → JSString) (g g1 : Grouped α) (x : α)
    (h : groupStep file g x = some g1) :
    g1.map Prod.fst =
      if file x ∈ g.map Prod.fst then g.map Prod.fst else g.map Prod.fst ++ [file x] := by
  unfold groupStep getProperty at h
  cases hown : ownProperty g (file x) with
  | some items =>
    have hmem : file x ∈ g.map Prod.fst := by
      by_contra hc
      rw [(ownProperty_eq_none_iff g (file x)).mpr hc] at hown
      cases hown
    simp only [hown] at h
    cases h
    rw [keys_pushTo, if_pos hmem]
  | none =>
    have hmem : file x ∉ g.map Prod.fst := (ownProperty_eq_none_iff g (file x)).mp hown
    by_cases hp : file x ∈ objectPrototypeKeys
    · simp [hp, hown] at h
    · have hnew : ownProperty (g ++ [(file x, ([] : List α))]) (file x) = some [] := by
        simp [ownProperty_append, hown]
      simp [hp, hown, hnew] at h
      subst h
      rw [keys_pushTo, if_neg hmem]
      simp

theorem filter_ne_filter_not_mem (l keys : List JSString) (x : JSString) (hx : x ∈ keys) :
    (l.filter (fun y => y != x)).filter (fun k => !keys.contains k) =
      l.filter (fun k => !keys.contains k) := by
  rw [List.filter_filter]
  apply List.filter_congr
  intro y _
  by_cases hy : y = x
  · subst hy
    simp [hx]
  · simp [hy]

theorem filter_not_mem_append (l keys : List JSString) (x : JSString) :
    l.filter (fun k => !(keys ++ [x]).contains k) =
      (l.filter (fun y => y != x)).filter (fun k => !keys.contains k) := by
  rw [List.filter_filter]
  apply List.filter_congr
  intro y _
  by_cases hy : y = x
  · subst hy
    simp
  · simp [hy]

/-- The keys of `grouped` are created in the order in which the files first appear. -/
theorem groupLoop_keys {α : Type} (file : α → JSString) (xs : List α) (g g' : Grouped α)
    (h : groupLoop file g xs = some g') :
    g'.map Prod.fst = g.map Prod.fst ++
      (firstSeen (xs.map file)).filter (fun k => !(g.map Prod.fst).contains k) := by
  induction xs generalizing g with
  | nil =>
    simp only [groupLoop, Option.some.injEq] at h
    subst h
    simp [firstSeen]
  | cons x xs ih =>
    unfold groupLoop at h
    cases hstep : groupStep file g x with
    | none => simp [hstep] at h
    | some g1 =>
      simp only [hstep] at h
      have hk := groupStep_keys file g g1 x hstep
      rw [ih g1 h, hk]
      simp only [List.map_cons, firstSeen]
      by_cases hm : file x ∈ g.map Prod.fst
      · have hc : (g.map Prod.fst).contains (file x) = true := by simpa using hm
        rw [if_pos hm, List.filter_cons, filter_ne_filter_not_mem _ _ _ hm]
        simp [hm]
      · rw [if_neg hm, List.filter_cons, filter_not_mem_append]
        simp [hm]
/-- C12 fails as stated: for two findings in the files `10` and `2`, in this order, the scan
completes and the keys of `grouped` are enumerated as `2`, `10`, not in the order of first
appearance `10`, `2`. (With a finding in a file named `constructor` the grouping throws and
the scan does not complete.) -/
theorem grouping_order_counterexample :
    (groupFindings Finding.file numberedFindings).map ownKeys = some [str "2", str "10"] ∧
      firstSeen (numberedFindings.map Finding.file) = [str "10", str "2"] ∧
      [str "2", str "10"] ≠ [str "10", str "2"] ∧
      groupFindings Finding.file [constructorFinding] = none := by
  decide

/-- C12, amended: when the grouping of `allFindings` completes, (i) the group read under the
`file` of a finding is the list of the findings of that `file`, in the order of
`allFindings`, and every group is such a list; (ii) the keys of `grouped` are created in the
order in which the files first appear, and are enumerated with the file paths that are array
indices first, in ascending numeric order, followed by the other file paths in the order of
first appearance; when no file path is an array index the enumeration is the order of first
appearance. -/
theorem grouping_order (allFindings : List Finding) (grouped : Grouped Finding)
    (h : groupFindings Finding.file allFindings = some grouped) :
    (∀ f ∈ allFindings, ownProperty grouped f.file =
      some (allFindings.filter (fun x => x.file == f.file))) ∧
    (∀ key items, ownProperty grouped key = some items →
      items = allFindings.filter (fun x => x.file == key)) ∧
    grouped.map Prod.fst = firstSeen (allFindings.map Finding.file) ∧
    ownKeys grouped =
      List.insertionSort (fun a b => indexValue a ≤ indexValue b)
          ((firstSeen (allFindings.map Finding.file)).filter isArrayIndex) ++
        (firstSeen (allFindings.map Finding.file)).filter (fun key => !isArrayIndex key) ∧
    ((∀ f ∈ allFindings, isArrayIndex f.file = false) →
      ownKeys grouped = firstSeen (allFindings.map Finding.file)) := by
  obtain ⟨_, hspec, _⟩ := groupLoop_spec Finding.file allFindings [] grouped (by simp) h
  have hkeys : grouped.map Prod.fst = firstSeen (allFindings.map Finding.file) := by
    have := groupLoop_keys Finding.file allFindings [] grouped h
    simpa using this
  have hsub : ∀ l : List JSString, ∀ k ∈ firstSeen l, k ∈ l := by
    intro l
    induction l with
    | nil => simp [firstSeen]
    | cons x rest ih =>
      intro k hk
      simp only [firstSeen, List.mem_cons] at hk
      rcases hk with hk | hk
      · exact hk ▸ List.mem_cons_self _ _
      · exact List.mem_cons_of_mem _ (ih k (List.mem_filter.mp hk).1)
  refine ⟨?_, ?_, hkeys, by simp only [ownKeys, hkeys], ?_⟩
  · intro f hf
    rw [hspec]
    have : allFindings.any (fun x => x.file == f.file) = true :=
      List.any_eq_true.mpr ⟨f, hf, by simp⟩
    simp [ownProperty, this]
  · intro key items hown
    rw [hspec] at hown
    split at hown
    · simpa [ownProperty] using hown.symm
    · cases hown
  · intro hno
    have hall : ∀ k ∈ firstSeen (allFindings.map Finding.file), isArrayIndex k = false := by
      intro k hk
      obtain ⟨f, hf, rfl⟩ := List.mem_map.mp (hsub _ k hk)
      exact hno f hf
    have e1 : (firstSeen (allFindings.map Finding.file)).filter isArrayIndex = [] := by
      rw [List.filter_eq_nil_iff]
      intro k hk
      simp [hall k hk]
    have e2 : (firstSeen (allFindings.map Finding.file)).filter (fun key => !isArrayIndex key) =
        firstSeen (allFindings.map Finding.file) := by
      rw [List.filter_eq_self]
      intro k hk
      simp [hall k hk]
    simp only [ownKeys, hkeys, e1, e2, List.insertionSort, List.nil_append]

theorem grouping_order_witness :
    groupFindings Finding.file sampleFindings = some (sampleGrouped.image Prod.snd) ∧
    ownKeys (sampleGrouped.image Prod.snd) = [str "config.py", str "a.js"] ∧
    ((∀ f ∈ sampleFindings, ownProperty (sampleGrouped.image Prod.snd) f.file =
      some (sampleFindings.filter (fun x => x.file == f.file))) ∧
    (∀ key items, ownProperty (sampleGrouped.image Prod.snd) key = some items →
      items = sampleFindings.filter (fun x => x.file == key)) ∧
    (sampleGrouped.image Prod.snd).map Prod.fst = firstSeen (sampleFindings.map Finding.file) ∧
    ownKeys (sampleGrouped.image Prod.snd) =
      List.insertionSort (fun a b => indexValue a ≤ indexValue b)
          ((firstSeen (sampleFindings.map Finding.file)).filter isArrayIndex) ++
        (firstSeen (sampleFindings.map Finding.file)).filter (fun key => !isArrayIndex key) ∧
    ((∀ f ∈ sampleFindings, isArrayIndex f.file = false) →
      ownKeys (sampleGrouped.image Prod.snd) = firstSeen (sampleFindings.map Finding.file))) ∧
    (∀ f ∈ sampleFindings, isArrayIndex f.file = false) ∧
    ownKeys (sampleGrouped.image Prod.snd) = firstSeen (sampleFindings.map Finding.file) :=
  ⟨by decide, by decide,
    grouping_order sampleFindings (sampleGrouped.image Prod.snd) (by decide), by decide,
    (grouping_order sampleFindings (sampleGrouped.image Prod.snd) (by decide)).2.2.2.2
      (by decide)⟩

/-! ## Order of the stages of the filter -/

theorem rejectsInOrder_eq_any (l : List Bool) : rejectsInOrder l = l.any id := by
  induction l with
  | nil => rfl
  | cons b l ih => cases b <;> simp [rejectsInOrder, ih]

theorem isFalsePositive_eq_stages (ruleId matchedText line filePath : JSString) :
    isFalsePositive ruleId matchedText line filePath =
      rejectsInOrder (stages ruleId matchedText line filePath) := by
  unfold isFalsePositive stages privateIpStage envFileRefStage manifestStage genericStage
  simp only [rejectsInOrder]
  generalize (ruleId == str "private-ip") = b1
  generalize (match matchGroups ipGroup1 ipGroup2 matchedText with
      | some ipMatch => decide (ipMatch.2.length > 3)
      | none => false) = b2
  generalize versionVocabulary.test line = b3
  generalize (ruleId == str "env-file-ref") = b4
  generalize (toLowerCase (basename filePath) == str "package.json") = b5
  generalize (toLowerCase (basename filePath) == str "package-lock.json") = b6
  generalize dependencyLine.test line = b7
  generalize (FALSE_POSITIVE_PATTERNS.any fun pattern => pattern.test line) = b8
  cases b1 <;> cases b2 <;> cases b3 <;> cases b4 <;> cases b5 <;> cases b6 <;> cases b7 <;>
    cases b8 <;> rfl

/-- C14: `isFalsePositive` returns true exactly when at least one of the four stages
rejects (the stage of `private-ip`, the stage of `env-file-ref`, the manifest stage, the
generic stage), and going through the four stages in any other order, returning at the
first that rejects, gives the same result. -/
theorem stage_order_irrelevant (ruleId matchedText line filePath : JSString)
    (order : List Bool) (horder : order.Perm (stages ruleId matchedText line filePath)) :
    (isFalsePositive ruleId matchedText line filePath = true ↔
      (privateIpStage ruleId matchedText line = true ∨ envFileRefStage ruleId filePath = true ∨
        manifestStage line filePath = true ∨ genericStage line = true)) ∧
    rejectsInOrder order = isFalsePositive ruleId matchedText line filePath := by
  constructor
  · rw [isFalsePositive_eq_stages, rejectsInOrder_eq_any]
    simp [stages]
  · rw [isFalsePositive_eq_stages, rejectsInOrder_eq_any, rejectsInOrder_eq_any]
    cases h : (stages ruleId matchedText line filePath).any id with
    | true =>
      obtain ⟨b, hb, hb'⟩ := List.any_eq_true.mp h
      exact List.any_eq_true.mpr ⟨b, horder.mem_iff.mpr hb, hb'⟩
    | false =>
      cases h' : order.any id with
      | false => rfl
      | true =>
        obtain ⟨b, hb, hb'⟩ := List.any_eq_true.mp h'
        have := List.any_eq_true.mpr ⟨b, horder.mem_iff.mp hb, hb'⟩
        rw [h] at this
        cases this

theorem stage_order_irrelevant_witness :
    stages (str "env-file-ref") (str "dotenv") (str "\"dotenv\": \"^10.0.0\"")
        (str "package.json") = [false, true, true, false] ∧
    ((isFalsePositive (str "env-file-ref") (str "dotenv") (str "\"dotenv\": \"^10.0.0\"")
        (str "package.json") = true ↔
      (privateIpStage (str "env-file-ref") (str "dotenv") (str "\"dotenv\": \"^10.0.0\"") = true ∨
        envFileRefStage (str "env-file-ref") (str "package.json") = true ∨
        manifestStage (str "\"dotenv\": \"^10.0.0\"") (str "package.json") = true ∨
        genericStage (str "\"dotenv\": \"^10.0.0\"") = true)) ∧
    rejectsInOrder (stages (str "env-file-ref") (str "dotenv") (str "\"dotenv\": \"^10.0.0\"")
        (str "package.json")).reverse =
      isFalsePositive (str "env-file-ref") (str "dotenv") (str "\"dotenv\": \"^10.0.0\"")
        (str "package.json")) :=
  ⟨by decide, stage_order_irrelevant (str "env-file-ref") (str "dotenv")
    (str "\"dotenv\": \"^10.0.0\"") (str "package.json") _ (List.reverse_perm _)⟩

/-! ## Masking of the reported text -/

theorem scanLines_keeps (relative : JSString → JSString → JSString) (rules : List Rule)
    (filePath baseDir : JSString) (i : Nat) (lines : List JSString) (findings : List Finding)
    (f : Finding) (hf : f ∈ findings) :
    f ∈ scanLines relative rules filePath baseDir i lines findings := by
  induction lines generalizing i findings with
  | nil => simpa [scanLines] using hf
  | cons line rest ih =>
    unfold scanLines
    split
    · exact ih _ _ hf
    · split
      · exact ih _ _ hf
      · apply ih
        rw [scanRules_eq_filterMap]
        exact List.mem_append_left _ hf

theorem scanLines_reports (relative : JSString → JSString → JSString) (rules : List Rule)
    (filePath baseDir : JSString) (i : Nat) (lines : List JSString) (findings : List Finding)
    (j : Nat) (line : JSString) (rule : Rule) (f : Finding)
    (hj : lines[j]? = some line) (hblank : (trim line).length ≠ 0)
    (hcom : isComment line = false) (hr : rule ∈ rules)
    (hf : ruleFinding relative filePath baseDir (i + j) line rule = some f) :
    f ∈ scanLines relative rules filePath baseDir i lines findings := by
  induction lines generalizing i j findings with
  | nil => simp at hj
  | cons l rest ih =>
    cases j with
    | zero =>
      simp only [List.getElem?_cons_zero, Option.some.injEq] at hj
      subst hj
      unfold scanLines
      have hb : ((trim l).length == 0) = false := by simpa using hblank
      simp only [hb, hcom, Bool.false_eq_true, if_false]
      apply scanLines_keeps
      rw [scanRules_eq_filterMap]
      exact List.mem_append_right _ (List.mem_filterMap.mpr ⟨rule, hr, by simpa using hf⟩)
    | succ j =>
      have hj' : rest[j]? = some line := by simpa using hj
      have hf' : ruleFinding relative filePath baseDir (i + 1 + j) line rule = some f := by
        have e : i + 1 + j = i + (j + 1) := by omega
        rw [e]
        exact hf
      unfold scanLines
      split
      · exact ih _ _ _ hj' hf'
      · split
        · exact ih _ _ _ hj' hf'
        · exact ih _ _ _ hj' hf'

/-- C1: (a) every finding `f` that `scanFile` reports comes from the line of number `f.line`
of the content and from a rule of the rule set whose pattern matches a text `t` on that very
line, not a false positive; `f` carries the id, name, severity and description of that rule,
and its field `matched` is the first 6 code units of `t`, the 4-character marker `****` and
the last 4 code units of `t` when `t` is longer than 12, and `t` itself when `t` has at most
12 code units. (b) Conversely, for every line that is neither blank nor a comment and every
rule whose pattern matches a text `t` on it that is not a false positive, `scanFile` reports a
finding with that line number and rule id whose `matched` is `t` masked in this way. -/
theorem scanFile_matched_is_masked (relative : JSString → JSString → JSString)
    (rules : List Rule) (filePath baseDir : JSString) (content : Option JSString) :
    (∀ f ∈ scanFile relative rules filePath baseDir content,
      ∃ text line rule t, content = some text ∧ 1 ≤ f.line ∧
        (splitLines text)[f.line - 1]? = some line ∧ rule ∈ rules ∧
        rule.exec line = some t ∧ isFalsePositive rule.id t line filePath = false ∧
        f.ruleId = rule.id ∧ f.ruleName = rule.name ∧ f.severity = rule.severity ∧
        f.description = rule.description ∧ (str "****").length = 4 ∧
        (12 < t.length → f.matched = t.take 6 ++ str "****" ++ t.drop (t.length - 4)) ∧
        (t.length ≤ 12 → f.matched = t)) ∧
    (∀ (text : JSString) (j : Nat) (line : JSString) (rule : Rule) (t : JSString),
      content = some text → (splitLines text)[j]? = some line → (trim line).length ≠ 0 →
      isComment line = false → rule ∈ rules → rule.exec line = some t →
      isFalsePositive rule.id t line filePath = false →
      ∃ f ∈ scanFile relative rules filePath baseDir content,
        f.line = j + 1 ∧ f.ruleId = rule.id ∧
        f.matched =
          if 12 < t.length then t.take 6 ++ str "****" ++ t.drop (t.length - 4) else t) := by
  constructor
  · intro f hf
    obtain ⟨text, hc, j, line, hj, _, _, rule, hr, t, ht, hfp, hEq⟩ :=
      scanFile_mem _ _ _ _ _ _ hf
    refine ⟨text, line, rule, t, hc, by rw [hEq]; simp, by rw [hEq]; simpa using hj, hr, ht, hfp,
      by rw [hEq], by rw [hEq], by rw [hEq], by rw [hEq], by decide, ?_, ?_⟩
    · intro h
      rw [hEq]
      simp [masked_eq, h]
    · intro h
      rw [hEq]
      have : ¬ 12 < t.length := by omega
      simp [masked_eq, this]
  · intro text j line rule t hc hj hblank hcom hr ht hfp
    subst hc
    refine ⟨{ ruleId := rule.id, ruleName := rule.name, severity := rule.severity,
              description := rule.description,
              file := backslashesToSlashes (relative baseDir filePath),
              line := j + 1, matched := masked t,
              lineContent := substring (trim line) 0 200 }, ?_, rfl, rfl, masked_eq t⟩
    unfold scanFile
    apply scanLines_reports relative rules filePath baseDir 0 (splitLines text) [] j line rule _
      hj hblank hcom hr
    simp [ruleFinding, ht, hfp]

theorem scanFile_matched_is_masked_witness :
    passwordFinding ∈ scanFile relativeTo [passwordRule] (str "/repo/config.py") (str "/repo")
        (some configText) ∧
    (splitLines configText)[1]? = some passwordLine ∧
    passwordRule.exec passwordLine = some passwordSecret ∧
    (∃ text line rule t, some configText = some text ∧ 1 ≤ passwordFinding.line ∧
        (splitLines text)[passwordFinding.line - 1]? = some line ∧ rule ∈ [passwordRule] ∧
        rule.exec line = some t ∧
        isFalsePositive rule.id t line (str "/repo/config.py") = false ∧
        passwordFinding.ruleId = rule.id ∧ passwordFinding.ruleName = rule.name ∧
        passwordFinding.severity = rule.severity ∧
        passwordFinding.description = rule.description ∧ (str "****").length = 4 ∧
        (12 < t.length →
          passwordFinding.matched = t.take 6 ++ str "****" ++ t.drop (t.length - 4)) ∧
        (t.length ≤ 12 → passwordFinding.matched = t)) ∧
    (∃ f ∈ scanFile relativeTo [passwordRule] (str "/repo/config.py") (str "/repo")
        (some configText),
      f.line = 1 + 1 ∧ f.ruleId = passwordRule.id ∧
      f.matched =
        if 12 < passwordSecret.length then
          passwordSecret.take 6 ++ str "****" ++ passwordSecret.drop (passwordSecret.length - 4)
        else passwordSecret) :=
  ⟨by decide, by decide, by decide,
    (scanFile_matched_is_masked relativeTo [passwordRule] (str "/repo/config.py") (str "/repo")
      (some configText)).1 passwordFinding (by decide),
    (scanFile_matched_is_masked relativeTo [passwordRule] (str "/repo/config.py") (str "/repo")
      (some configText)).2 configText 1 passwordLine passwordRule passwordSecret rfl (by decide)
      (by decide) (by decide) (List.mem_singleton.mpr rfl) (by decide) (by decide)⟩

end SecretSweep
